import Mathlib

/-!
Verification of the roster optimization engine (`src/lib/workers/solver.worker.ts`)
of the instamart-roster repository.

The engine is shallowly embedded: the demand matrix `oph : number[][]` becomes a
total function `ℕ → ℕ → ℕ` (indexed as `oph d h`), JavaScript numbers used for
configuration percentages and solver primal values become `ℚ`, and the LP model
text becomes the list of its lines (`buildLP` returns `List String`; the source
joins them with a newline).  `Math.round` and `Math.ceil(a / b)` are embedded as
kernel-executable functions on `ℚ`-numerator/denominator resp. `ℕ`, with lemmas
(`jsRound_eq_floor`, `jsCeilDiv_eq_ceil`) certifying the usual floor/ceiling
characterisations.  The external HiGHS solver is a black box: the driver
(`self.onmessage`) is embedded as a function of the phase-1 solver outcome and a
phase-2 solver oracle (`Except Unit HighsResult`, `Except.error` modelling a
thrown exception caught by the `try`/`catch` around phase 2).  Wall-clock fields
(`solveTimeMs`) and progress messages are outside the embedding.
-/

namespace Roster

/-- JavaScript `Math.round x` = ⌊x + 1/2⌋ (round half toward +∞), computed on the
numerator and denominator so that it evaluates in the kernel:
⌊q + 1/2⌋ = ⌊(2·num + den) / (2·den)⌋ = fdiv (2·num + den) (2·den). -/
def jsRound (q : ℚ) : ℤ := Int.fdiv (2 * q.num + q.den) (2 * q.den)

/-- JavaScript `Math.ceil(a / b)` for natural `a` and positive natural `b`
(exact on these inputs), computed as the natural ceiling division. -/
def jsCeilDiv (a b : ℕ) : ℕ := (a + b - 1) / b

-- ─── Shift definitions (constants of the source) ───

/-- Day-shift and overnight start hours for FT: start 05–15 or 20–23. -/
def FT_STARTS : List ℕ := [5, 6, 7, 8, 9, 10, 11, 12, 13, 14, 15, 20, 21, 22, 23]

/-- PT start hours 05–20, `Array.from({length:16},(_,i)=>i+5)`. -/
def PT_STARTS : List ℕ := [5, 6, 7, 8, 9, 10, 11, 12, 13, 14, 15, 16, 17, 18, 19, 20]

/-- WFT start hours 05–15 (day only), `Array.from({length:11},(_,i)=>i+5)`. -/
def WFT_STARTS : List ℕ := [5, 6, 7, 8, 9, 10, 11, 12, 13, 14, 15]

def MON_FRI : List ℕ := [0, 1, 2, 3, 4]

def ALL_DAYS : List ℕ := [0, 1, 2, 3, 4, 5, 6]

/-- All 9 raw shift hours for a 9-hour worker starting at `s`; raw values ≥ 24
are hours of the next calendar day. -/
def raw9 (s : ℕ) : List ℕ := [s, s + 1, s + 2, s + 3, s + 4, s + 5, s + 6, s + 7, s + 8]

def ptHours (s : ℕ) : List ℕ := [s, s + 1, s + 2, s + 3]

/-- Demand matrix: `oph d h` is the source `oph[d][h]` (non-negative integers). -/
def Oph : Type := ℕ → ℕ → ℕ

/-- Demand seen by shift-window index `i` (0–8) of a 9-hour shift starting at
`s` on day `shiftDay`: the source computes `oph[day][rh % 24]` where `day` is
the shift day for raw hours < 24 and the next day otherwise. -/
def demAt (oph : Oph) (s shiftDay i : ℕ) : ℕ :=
  oph (if s + i < 24 then shiftDay else (shiftDay + 1) % 7) ((s + i) % 24)

/-- Position at which shift-window index `i` lands under the stable
descending sort `demands.map((d,i)=>({i,d})).sort((a,b)=>b.d-a.d)`: the number
of indices that sort strictly before `i`, i.e. with larger demand, or equal
demand and smaller index (JavaScript `Array.prototype.sort` is stable). -/
def demRank (oph : Oph) (s shiftDay i : ℕ) : ℕ :=
  ((Finset.range 9).filter (fun j =>
    demAt oph s shiftDay j > demAt oph s shiftDay i ∨
      (demAt oph s shiftDay j = demAt oph s shiftDay i ∧ j < i))).card

/-- Peak-protected smearing coefficient: 1.0 for the top-3 demand hours of the
9-hour window (the `slice(0,3)` of the stable sort, i.e. rank < 3), 5/6 for the
other six.  `hours.indexOf rawH = rawH - s` for `s ≤ rawH ≤ s+8`. -/
def smearedCoeff (oph : Oph) (s shiftDay rawH : ℕ) : ℚ :=
  if demRank oph s shiftDay (rawH - s) < 3 then 1 else 5 / 6

-- ─── Variable naming ───

def varFT (s p : ℕ) : String := "xFT_" ++ toString s ++ "_" ++ toString p

def varPT (s p : ℕ) : String := "xPT_" ++ toString s ++ "_" ++ toString p

def varWFT (s : ℕ) : String := "xWFT_" ++ toString s

def varWPT (s : ℕ) : String := "xWPT_" ++ toString s

-- ─── Variable pre-filtering ───

/-- Same-day raw hours of a 9-hour shift: `raw9(s).filter(rh => rh < 24)`. -/
def sameDay9 (s : ℕ) : List ℕ := (raw9 s).filter (fun rh => rh < 24)

/-- Wrap hours mapped to next-day clock hours:
`raw9(s).filter(rh => rh >= 24).map(rh => rh - 24)`. -/
def nextDay9 (s : ℕ) : List ℕ := ((raw9 s).filter (fun rh => 24 ≤ rh)).map (fun rh => rh - 24)

/-- A `(s, p)` FT template covers ≥ 1 positive-demand cell.  The source loops
over `ALL_DAYS`, skips `d = p` (`continue`), and tests same-day hours on `d`
and (when wrap hours exist) wrap hours on `(d+1) % 7`. -/
def isActiveFT (oph : Oph) (s p : ℕ) : Bool :=
  ALL_DAYS.any (fun d =>
    decide (d ≠ p) &&
      ((sameDay9 s).any (fun h => decide (0 < oph d h)) ||
        (nextDay9 s).any (fun h => decide (0 < oph ((d + 1) % 7) h))))

def isActivePT (oph : Oph) (s p : ℕ) : Bool :=
  (ALL_DAYS.filter (fun d => decide (d ≠ p))).any (fun d =>
    (ptHours s).any (fun h => decide (0 < oph d h)))

def isActiveWFT (oph : Oph) (s : ℕ) : Bool :=
  (raw9 s).any (fun rh => decide (rh < 24) && [5, 6].any (fun d => decide (0 < oph d rh)))

def isActiveWPT (oph : Oph) (s : ℕ) : Bool :=
  (ptHours s).any (fun h => [5, 6].any (fun d => decide (0 < oph d h)))

-- ─── Configuration and input ───

structure Config where
  productivityRate : ℕ
  partTimerCapPct : ℚ
  weekenderCapPct : ℚ
  allowWeekendDayOff : Bool

structure SolverInput where
  oph : Oph
  config : Config

/-- `Math.round(config.partTimerCapPct)`. -/
def capPt (input : SolverInput) : ℤ := jsRound input.config.partTimerCapPct

/-- `Math.round(config.weekenderCapPct)`. -/
def capWk (input : SolverInput) : ℤ := jsRound input.config.weekenderCapPct

def usePT (input : SolverInput) : Bool := decide (0 < capPt input)

def useWFT (input : SolverInput) : Bool := decide (0 < capWk input)

def useWPT (input : SolverInput) : Bool := decide (0 < capPt input) && decide (0 < capWk input)

def dayOffDays (input : SolverInput) : List ℕ :=
  if input.config.allowWeekendDayOff then ALL_DAYS else MON_FRI

-- ─── Active template lists (pre-filtered variables) ───

def ftVars (input : SolverInput) : List (ℕ × ℕ) :=
  FT_STARTS.flatMap (fun s =>
    ((dayOffDays input).filter (fun p => isActiveFT input.oph s p)).map (fun p => (s, p)))

def ptVars (input : SolverInput) : List (ℕ × ℕ) :=
  if usePT input then
    PT_STARTS.flatMap (fun s =>
      ((dayOffDays input).filter (fun p => isActivePT input.oph s p)).map (fun p => (s, p)))
  else []

def wftVars (input : SolverInput) : List ℕ :=
  if useWFT input then WFT_STARTS.filter (fun s => isActiveWFT input.oph s) else []

def wptStarts (input : SolverInput) : List ℕ :=
  if useWPT input then PT_STARTS.filter (fun s => isActiveWPT input.oph s) else []

def ftNames (input : SolverInput) : List String := (ftVars input).map (fun t => varFT t.1 t.2)

def ptNames (input : SolverInput) : List String := (ptVars input).map (fun t => varPT t.1 t.2)

def wftNames (input : SolverInput) : List String := (wftVars input).map (fun s => varWFT s)

def wptNames (input : SolverInput) : List String := (wptStarts input).map (fun s => varWPT s)

/-- All variables of the model, in source order; this is both the `Bounds`
enumeration and the `General` (integrality) enumeration of `buildLP`. -/
def lpGenerals (input : SolverInput) : List String :=
  ftNames input ++ ptNames input ++ wftNames input ++ wptNames input

-- ─── LP terms and coverage rows ───

/-- One term of a coverage row: 9-hour workers are pushed with an explicit
smearing coefficient rendered by `toFixed(8)`; PT/WPT are pushed as the bare
variable name, which in LP format means coefficient 1. -/
inductive LPTerm where
  | smeared (c : ℚ) (v : String)
  | plain (v : String)
deriving DecidableEq

def LPTerm.vname : LPTerm → String
  | .smeared _ v => v
  | .plain v => v

def LPTerm.coeff : LPTerm → ℚ
  | .smeared c _ => c
  | .plain _ => 1

/-- `coeff.toFixed(8)` on the only two values `smearedCoeff` produces:
`(1.0).toFixed(8) = "1.00000000"` and `(5/6).toFixed(8) = "0.83333333"`. -/
def fixed8 (c : ℚ) : String := if c = 1 then "1.00000000" else "0.83333333"

def renderTerm : LPTerm → String
  | .smeared c v => fixed8 c ++ " " ++ v
  | .plain v => v

/-- Source `(d - 1 + 7) % 7` for the loop variable `d ∈ 0..6`, embedded on ℕ. -/
def prevDay (d : ℕ) : ℕ := (d + 6) % 7

/-- The terms pushed for the coverage row of cell `(d, h)`, in source order:
FT same-day (skipping `d = p`), FT overnight wrap (start ≥ 20, skipping
`p = prevDay`), PT (skipping `d = p`), and on weekend days WFT then WPT. -/
def coverTerms (oph : Oph) (ftv ptv : List (ℕ × ℕ)) (wftv wptv : List ℕ) (d h : ℕ) :
    List LPTerm :=
  (ftv.filter (fun t => decide (t.2 ≠ d) && decide (h ∈ sameDay9 t.1))).map
      (fun t => LPTerm.smeared (smearedCoeff oph t.1 d h) (varFT t.1 t.2)) ++
  (ftv.filter (fun t =>
        decide (20 ≤ t.1) && decide (t.2 ≠ prevDay d) && decide (h + 24 ∈ raw9 t.1))).map
      (fun t => LPTerm.smeared (smearedCoeff oph t.1 (prevDay d) (h + 24)) (varFT t.1 t.2)) ++
  (ptv.filter (fun t => decide (d ≠ t.2) && decide (h ∈ ptHours t.1))).map
      (fun t => LPTerm.plain (varPT t.1 t.2)) ++
  (if d = 5 ∨ d = 6 then
    (wftv.filter (fun s => decide (h ∈ raw9 s))).map
        (fun s => LPTerm.smeared (smearedCoeff oph s d h) (varWFT s)) ++
      (wptv.filter (fun s => decide (h ∈ ptHours s))).map (fun s => LPTerm.plain (varWPT s))
  else [])

structure CoverageRow where
  day : ℕ
  hour : ℕ
  terms : List LPTerm
  rhs : ℕ

/-- The emitted coverage rows, in source order: for each `(d, h)` with positive
demand, the row `Σ terms ≥ ⌈demand / rate⌉`, skipped entirely when no term
covers the cell (`if (terms.length === 0) continue`). -/
def coverageRows (input : SolverInput) : List CoverageRow :=
  (List.range 7).flatMap (fun d =>
    (List.range 24).filterMap (fun h =>
      if input.oph d h = 0 then none
      else if (coverTerms input.oph (ftVars input) (ptVars input) (wftVars input)
          (wptStarts input) d h).isEmpty then none
      else some ⟨d, h,
        coverTerms input.oph (ftVars input) (ptVars input) (wftVars input) (wptStarts input) d h,
        jsCeilDiv (input.oph d h) input.config.productivityRate⟩))

/-- Rendering of coverage row number `idx` (1-based over all constraints):
` c{idx}: {terms.join(" + ")} >= {required}`. -/
def renderRow (idx : ℕ) (r : CoverageRow) : String :=
  " c" ++ toString idx ++ ": " ++ String.intercalate " + " (r.terms.map renderTerm) ++
    " >= " ++ toString r.rhs

/-- Objective terms: phase 1 pushes every active variable, phase 2 only FT and
WFT; all terms are bare variable names (coefficient 1). -/
def lpObjTerms (input : SolverInput) (phase : ℕ) : List String :=
  if phase = 1 then ftNames input ++ ptNames input ++ wftNames input ++ wptNames input
  else ftNames input ++ wftNames input

/-- LHS of the PT-cap row `(100-capPt)(PT+WPT) - capPt(FT+WFT) <= 0`. -/
def capPtLhs (input : SolverInput) : String :=
  String.intercalate " + "
      ((ptNames input ++ wptNames input).map (fun v => toString (100 - capPt input) ++ " " ++ v))
    ++ " - " ++
  String.intercalate " - "
      ((ftNames input ++ wftNames input).map (fun v => toString (capPt input) ++ " " ++ v))

/-- LHS of the weekender-cap row `(100-capWk)(WFT+WPT) - capWk(FT+PT) <= 0`. -/
def capWkLhs (input : SolverInput) : String :=
  String.intercalate " + "
      ((wftNames input ++ wptNames input).map (fun v => toString (100 - capWk input) ++ " " ++ v))
    ++ " - " ++
  String.intercalate " - "
      ((ftNames input ++ ptNames input).map (fun v => toString (capWk input) ++ " " ++ v))

/-- The rendered coverage-constraint lines, numbered `c1, c2, …` in emission
order (the mutable `conCount` of the source counts coverage rows first). -/
def lpRowLines (input : SolverInput) : List String :=
  (coverageRows input).enum.map (fun p => renderRow (p.1 + 1) p.2)

/-- The PT-cap row (emitted when PT is in use and the cap binds). -/
def lpCapPtLines (input : SolverInput) : List String :=
  if usePT input && decide (capPt input < 100) then
    [" c" ++ toString ((coverageRows input).length + 1) ++ ": " ++ capPtLhs input ++ " <= 0"]
  else []

/-- The weekender-cap row; its number continues after the PT-cap row. -/
def lpCapWkLines (input : SolverInput) : List String :=
  if (useWFT input || useWPT input) && decide (capWk input < 100) then
    [" c" ++ toString ((coverageRows input).length + (lpCapPtLines input).length + 1) ++ ": " ++
      capWkLhs input ++ " <= 0"]
  else []

/-- The phase-2 total-headcount row `Σ x_T <= totalCap`. -/
def lpPhase2Lines (input : SolverInput) (phase : ℕ) (totalCap : ℤ) : List String :=
  if phase = 2 && decide (0 < totalCap) then
    [" c" ++ toString ((coverageRows input).length + (lpCapPtLines input).length +
        (lpCapWkLines input).length + 1) ++ ": " ++
      String.intercalate " + " (lpGenerals input) ++ " <= " ++ toString totalCap]
  else []

/-- The LP text produced by `buildLP`, as its list of lines (the source joins
them with `"\n"`).  `phase` is 1 or 2; `totalCap` is the phase-2 headcount cap. -/
def buildLP (input : SolverInput) (phase : ℕ) (totalCap : ℤ) : List String :=
  ["Minimize", " obj: " ++ String.intercalate " + " (lpObjTerms input phase), "", "Subject To"]
    ++ lpRowLines input ++ lpCapPtLines input ++ lpCapWkLines input
    ++ lpPhase2Lines input phase totalCap
    ++ ["", "Bounds"] ++ (lpGenerals input).map (fun v => " 0 <= " ++ v)
    ++ ["", "General", " " ++ String.intercalate " " (lpGenerals input), "", "End"]

/-- Formalisation of the coverage condition of the spec (§4.3): a term of the
coverage row of `(d, h)` belongs to an active template that covers the cell —
an FT template on shift day `d` (day off ≠ `d`) whose same-day productive
hours include `h`; an overnight FT (start ≥ 20) started on day `(d-1) mod 7`
(day off ≠ shift day) whose raw hours include `h + 24`; a PT template with
day off ≠ `d` whose hours include `h`; or, on weekend days, a WFT/WPT
template whose hours include `h`.  9-hour templates carry the smearing
coefficient; PT/WPT carry coefficient 1 (a plain term). -/
def specCovers (input : SolverInput) (d h : ℕ) (t : LPTerm) : Prop :=
  (∃ s p, s ∈ FT_STARTS ∧ p ∈ dayOffDays input ∧ isActiveFT input.oph s p = true ∧
    p ≠ d ∧ h ∈ sameDay9 s ∧
    t = LPTerm.smeared (smearedCoeff input.oph s d h) (varFT s p)) ∨
  (∃ s p, s ∈ FT_STARTS ∧ p ∈ dayOffDays input ∧ isActiveFT input.oph s p = true ∧
    20 ≤ s ∧ p ≠ prevDay d ∧ h + 24 ∈ raw9 s ∧
    t = LPTerm.smeared (smearedCoeff input.oph s (prevDay d) (h + 24)) (varFT s p)) ∨
  (usePT input = true ∧ ∃ s p, s ∈ PT_STARTS ∧ p ∈ dayOffDays input ∧
    isActivePT input.oph s p = true ∧ d ≠ p ∧ h ∈ ptHours s ∧
    t = LPTerm.plain (varPT s p)) ∨
  ((d = 5 ∨ d = 6) ∧
    ((useWFT input = true ∧ ∃ s, s ∈ WFT_STARTS ∧ isActiveWFT input.oph s = true ∧
        h ∈ raw9 s ∧ t = LPTerm.smeared (smearedCoeff input.oph s d h) (varWFT s)) ∨
      (useWPT input = true ∧ ∃ s, s ∈ PT_STARTS ∧ isActiveWPT input.oph s = true ∧
        h ∈ ptHours s ∧ t = LPTerm.plain (varWPT s))))

/-- Every occurrence of a variable name in the model, section by section
(objective, coverage rows, cap rows, phase-2 row, bounds, general), exactly the
name lists from which `buildLP` renders its lines. -/
def lpVarMentions (input : SolverInput) (phase : ℕ) (totalCap : ℤ) : List String :=
  lpObjTerms input phase
    ++ (coverageRows input).flatMap (fun r => r.terms.map LPTerm.vname)
    ++ (if usePT input && decide (capPt input < 100) then
          (ptNames input ++ wptNames input) ++ (ftNames input ++ wftNames input)
        else [])
    ++ (if (useWFT input || useWPT input) && decide (capWk input < 100) then
          (wftNames input ++ wptNames input) ++ (ftNames input ++ ptNames input)
        else [])
    ++ (if phase = 2 && decide (0 < totalCap) then lpGenerals input else [])
    ++ lpGenerals input ++ lpGenerals input

-- ─── Roster builder ───

inductive WType where
  | FT
  | PT
  | WFT
  | WPT
deriving DecidableEq

structure WorkerSlot where
  id : ℕ
  type : WType
  shiftStart : ℕ
  shiftEnd : ℕ
  dayOff : Option ℕ
  productiveHours : List ℕ
deriving DecidableEq

/-- `Math.round(solution[v] ?? 0)` clamped at 0 by the `for (i < count)` loop:
a missing variable counts 0, a negative rounded primal spawns no worker. -/
def cntOf (sol : List (String × ℚ)) (v : String) : ℕ := (jsRound ((sol.lookup v).getD 0)).toNat

def ftProtos (sol : List (String × ℚ)) (dds : List ℕ) : List WorkerSlot :=
  FT_STARTS.flatMap (fun s => dds.flatMap (fun p =>
    List.replicate (cntOf sol (varFT s p))
      { id := 0, type := WType.FT, shiftStart := s, shiftEnd := s + 9, dayOff := some p,
        productiveHours := (raw9 s).map (fun h => h % 24) }))

def ptProtos (sol : List (String × ℚ)) (dds : List ℕ) : List WorkerSlot :=
  PT_STARTS.flatMap (fun s => dds.flatMap (fun p =>
    List.replicate (cntOf sol (varPT s p))
      { id := 0, type := WType.PT, shiftStart := s, shiftEnd := s + 4, dayOff := some p,
        productiveHours := ptHours s }))

def wftProtos (sol : List (String × ℚ)) : List WorkerSlot :=
  WFT_STARTS.flatMap (fun s =>
    List.replicate (cntOf sol (varWFT s))
      { id := 0, type := WType.WFT, shiftStart := s, shiftEnd := s + 9, dayOff := none,
        productiveHours := raw9 s })

def wptProtos (sol : List (String × ℚ)) : List WorkerSlot :=
  PT_STARTS.flatMap (fun s =>
    List.replicate (cntOf sol (varWPT s))
      { id := 0, type := WType.WPT, shiftStart := s, shiftEnd := s + 4, dayOff := none,
        productiveHours := ptHours s })

/-- The worker records in source emission order, before ids are assigned
(the source threads a mutable `id` counter starting at 1 through the pushes). -/
def protoWorkers (sol : List (String × ℚ)) (dds : List ℕ) : List WorkerSlot :=
  ftProtos sol dds ++ ptProtos sol dds ++ wftProtos sol ++ wptProtos sol

/-- Days a worker is active: Sat+Sun for weekenders, else all days except the
day off (`ALL_DAYS.filter(d => d !== w.dayOff)`). -/
def activeDays (w : WorkerSlot) : List ℕ :=
  if w.type = WType.WFT ∨ w.type = WType.WPT then [5, 6]
  else ALL_DAYS.filter (fun d => decide (some d ≠ w.dayOff))

/-- Number of increments worker `w` makes to `coverage[d][h]`: for each active
day `d2` and stored productive hour `hr < 24`, the increment goes to the next
calendar day when `hr < shiftStart` (overnight wrap), else to `d2` itself. -/
def workerContrib (w : WorkerSlot) (d h : ℕ) : ℕ :=
  ((activeDays w).map (fun d2 =>
    (w.productiveHours.filter (fun hr =>
      decide (hr < 24) &&
        decide ((if hr < w.shiftStart then (d2 + 1) % 7 else d2) = d) &&
        decide (hr = h))).length)).sum

structure RosterOut where
  workers : List WorkerSlot
  coverage : ℕ → ℕ → ℕ
  ftCount : ℕ
  ptCount : ℕ
  wftCount : ℕ
  wptCount : ℕ

/-- `buildRoster(solution, oph, dayOffDays)`.  `oph` is unused by the source
(`void oph`).  Ids are the 1-based positions in emission order; the per-type
counts are incremented once per emitted worker of that type; the coverage
matrix is the sum of the per-worker contributions. -/
def buildRoster (sol : List (String × ℚ)) (oph : Oph) (dds : List ℕ) : RosterOut :=
  let workers := (protoWorkers sol dds).enum.map (fun p =>
    { p.2 with id := p.1 + 1 })
  { workers := workers
    coverage := fun d h => (workers.map (fun w => workerContrib w d h)).sum
    ftCount := (ftProtos sol dds).length
    ptCount := (ptProtos sol dds).length
    wftCount := (wftProtos sol).length
    wptCount := (wptProtos sol).length }

-- ─── Worker message handler (solver driver) ───

/-- Outcome of one `highs.solve` call: `Status` and the primal column map. -/
structure HighsResult where
  status : String
  columns : List (String × ℚ)

structure SolverResult where
  status : String
  workers : List WorkerSlot
  totalWorkers : ℕ
  ftCount : ℕ
  ptCount : ℕ
  wftCount : ℕ
  wptCount : ℕ
  coverage : ℕ → ℕ → ℕ
  required : ℕ → ℕ → ℕ
  errorMessage : Option String

def zeroMatrix : ℕ → ℕ → ℕ := fun _ _ => 0

/-- `input.oph.map(row => row.map(v => v > 0 ? Math.ceil(v / rate) : 0))`. -/
def requiredMatrix (input : SolverInput) : ℕ → ℕ → ℕ := fun d h =>
  if 0 < input.oph d h then jsCeilDiv (input.oph d h) input.config.productivityRate else 0

/-- `const runPhase2 = Math.round(input.config.partTimerCapPct) > 0`. -/
def runPhase2 (input : SolverInput) : Bool := decide (0 < jsRound input.config.partTimerCapPct)

/-- The driver logic of `self.onmessage` after the phase-1 solve returned
`r1`, with the phase-2 solve abstracted as the oracle `ph2` (`Except.error`
models any exception caught by the `try`/`catch` of the source; phase 2 is consulted
only when `runPhase2`, and its result is used only when its status is
`Optimal`).  On a non-optimal phase 1 the terminal error result is returned;
otherwise the roster is built from the chosen assignment and the status is
`"optimal"`.  `solveTimeMs` (wall clock) is outside the embedding. -/
def driver (input : SolverInput) (r1 : HighsResult) (ph2 : Except Unit HighsResult) :
    SolverResult :=
  if r1.status ≠ "Optimal" then
    { status := if r1.status = "Infeasible" then "infeasible" else "error"
      workers := []
      totalWorkers := 0
      ftCount := 0, ptCount := 0, wftCount := 0, wptCount := 0
      coverage := zeroMatrix
      required := zeroMatrix
      errorMessage := some ("Phase 1 solver status: " ++ r1.status) }
  else
    let result :=
      if runPhase2 input then
        match ph2 with
        | Except.ok r2 => if r2.status = "Optimal" then r2 else r1
        | Except.error _ => r1
      else r1
    let dds := if input.config.allowWeekendDayOff then ALL_DAYS else MON_FRI
    let rr := buildRoster result.columns input.oph dds
    { status := "optimal"
      workers := rr.workers
      totalWorkers := rr.workers.length
      ftCount := rr.ftCount, ptCount := rr.ptCount
      wftCount := rr.wftCount, wptCount := rr.wptCount
      coverage := rr.coverage
      required := requiredMatrix input
      errorMessage := none }

-- ─── Concrete instances used by witnesses and counterexamples ───

/-- Zero demand matrix. -/
def ophZero : Oph := fun _ _ => 0

/-- Single spike: 12 orders at Monday 10:00. -/
def ophSpike : Oph := fun d h => if d = 0 ∧ h = 10 then 12 else 0

/-- Demand 12 at Monday 00:00 (reachable only by an overnight wrap). -/
def ophNight : Oph := fun d h => if d = 0 ∧ h = 0 then 12 else 0

def cfgDefault : Config :=
  { productivityRate := 12, partTimerCapPct := 30, weekenderCapPct := 30,
    allowWeekendDayOff := false }

def cfgNoPT : Config :=
  { productivityRate := 12, partTimerCapPct := 0, weekenderCapPct := 30,
    allowWeekendDayOff := false }

def cfgNoWk : Config :=
  { productivityRate := 12, partTimerCapPct := 30, weekenderCapPct := 0,
    allowWeekendDayOff := false }

def inputSpike : SolverInput := { oph := ophSpike, config := cfgDefault }

def inputSpikeNoPT : SolverInput := { oph := ophSpike, config := cfgNoPT }

def inputSpikeNoWk : SolverInput := { oph := ophSpike, config := cfgNoWk }

/-- One overnight FT worker starting 20:00 with Tuesday (day 1) off. -/
def solFT20 : List (String × ℚ) := [(varFT 20 1, 1)]

/-- The worker `buildRoster` emits for `solFT20`. -/
def wFT20 : WorkerSlot :=
  { id := 1, type := WType.FT, shiftStart := 20, shiftEnd := 29, dayOff := some 1,
    productiveHours := [20, 21, 22, 23, 0, 1, 2, 3, 4] }

/-- One day FT worker starting 05:00 with Monday (day 0) off. -/
def solFT5 : List (String × ℚ) := [(varFT 5 0, 1)]

/-- The worker `buildRoster` emits for `solFT5`. -/
def wFT5 : WorkerSlot :=
  { id := 1, type := WType.FT, shiftStart := 5, shiftEnd := 14, dayOff := some 0,
    productiveHours := [5, 6, 7, 8, 9, 10, 11, 12, 13] }

/-- A primal map with an integral count and a negative fractional count. -/
def solMixed : List (String × ℚ) := [(varFT 5 0, 2), (varPT 5 1, mkRat (-3) 2)]

def r1Optimal : HighsResult := { status := "Optimal", columns := [] }

def r1Infeasible : HighsResult := { status := "Infeasible", columns := [] }

def r1Aborted : HighsResult := { status := "Aborted", columns := [] }

def ph2Err : Except Unit HighsResult := Except.error ()

-- ─── Numeric characterisations ───

/-- The kernel-executable `jsRound` is JavaScript `Math.round`: ⌊q + 1/2⌋. -/
theorem jsRound_eq_floor (q : ℚ) : jsRound q = ⌊q + 1 / 2⌋ := by
  have hden : (0 : ℚ) < (q.den : ℚ) := by exact_mod_cast q.den_pos
  have hq : (q.num : ℚ) = q * (q.den : ℚ) := (div_eq_iff (ne_of_gt hden)).mp (Rat.num_div_den q)
  have hfl := Rat.floor_intCast_div_natCast (2 * q.num + q.den) (2 * q.den)
  push_cast at hfl
  have harg : (2 * (q.num : ℚ) + (q.den : ℚ)) / (2 * (q.den : ℚ)) = q + 1 / 2 := by
    rw [div_eq_iff (by positivity)]
    ring_nf
    linarith [hq]
  rw [harg] at hfl
  rw [jsRound, Int.fdiv_eq_ediv _ (by positivity)]
  exact hfl.symm

/-- The kernel-executable `jsCeilDiv` is `Math.ceil(a / b)` for positive `b`. -/
theorem jsCeilDiv_eq_ceil (a b : ℕ) (hb : 0 < b) :
    jsCeilDiv a b = ⌈(a : ℚ) / (b : ℚ)⌉₊ := by
  have hbq : (0 : ℚ) < (b : ℚ) := by exact_mod_cast hb
  rcases Nat.eq_zero_or_pos a with ha | ha
  · subst ha
    have h0 : (0 + b - 1) / b = 0 := Nat.div_eq_of_lt (by omega)
    rw [jsCeilDiv, h0]
    symm
    simp
  · set n := (a + b - 1) / b with hn
    obtain ⟨r, hr, hdm⟩ : ∃ r, r < b ∧ b * n + r = a + b - 1 :=
      ⟨(a + b - 1) % b, Nat.mod_lt _ hb, by rw [hn]; exact Nat.div_add_mod _ _⟩
    have hnpos : 0 < n := by
      rcases Nat.eq_zero_or_pos n with h0 | h0
      · rw [h0, Nat.mul_zero, Nat.zero_add] at hdm
        omega
      · exact h0
    have hsplit : b * n = b * (n - 1) + b := by
      conv_lhs => rw [show n = n - 1 + 1 by omega]
      rw [Nat.mul_succ]
    have hle : a ≤ n * b := by rw [Nat.mul_comm]; omega
    have hgt : (n - 1) * b < a := by rw [Nat.mul_comm]; omega
    rw [jsCeilDiv, ← hn]
    symm
    rw [Nat.ceil_eq_iff (by omega)]
    constructor
    · rw [lt_div_iff₀ hbq]
      exact_mod_cast hgt
    · rw [div_le_iff₀ hbq]
      exact_mod_cast hle

-- ─── Variable-name disjointness ───

theorem varPT_ne_varFT (s p a b : ℕ) : varPT s p ≠ varFT a b := by
  intro h
  have h2 := congrArg String.data h
  simp [varPT, varFT, String.data_append] at h2

theorem varPT_ne_varWFT (s p a : ℕ) : varPT s p ≠ varWFT a := by
  intro h
  have h2 := congrArg String.data h
  simp [varPT, varWFT, String.data_append] at h2

theorem varWPT_ne_varFT (s a b : ℕ) : varWPT s ≠ varFT a b := by
  intro h
  have h2 := congrArg String.data h
  simp [varWPT, varFT, String.data_append] at h2

theorem varWPT_ne_varWFT (s a : ℕ) : varWPT s ≠ varWFT a := by
  intro h
  have h2 := congrArg String.data h
  simp [varWPT, varWFT, String.data_append] at h2

theorem varWFT_ne_varFT (s a b : ℕ) : varWFT s ≠ varFT a b := by
  intro h
  have h2 := congrArg String.data h
  simp [varWFT, varFT, String.data_append] at h2

theorem varWFT_ne_varPT (s a b : ℕ) : varWFT s ≠ varPT a b := by
  intro h
  have h2 := congrArg String.data h
  simp [varWFT, varPT, String.data_append] at h2

theorem varWPT_ne_varPT (s a b : ℕ) : varWPT s ≠ varPT a b := by
  intro h
  have h2 := congrArg String.data h
  simp [varWPT, varPT, String.data_append] at h2

theorem varFT_ne_varPT (s p a b : ℕ) : varFT s p ≠ varPT a b :=
  fun h => varPT_ne_varFT a b s p h.symm

-- ─── List helpers ───

theorem lookup_eq_none_of_not_mem (sol : List (String × ℚ)) (v : String)
    (h : ∀ kv ∈ sol, kv.1 ≠ v) : sol.lookup v = none := by
  induction sol with
  | nil => rfl
  | cons kv t ih =>
    have h1 : kv.1 ≠ v := h kv (by simp)
    have hbeq : (v == kv.1) = false := beq_eq_false_iff_ne.mpr (fun hh => h1 hh.symm)
    simp only [List.lookup, hbeq]
    exact ih (fun x hx => h x (by simp [hx]))

theorem countP_flatMap {α β : Type} (l : List α) (f : α → List β) (p : β → Bool) :
    (l.flatMap f).countP p = (l.map (fun a => (f a).countP p)).sum := by
  induction l with
  | nil => rfl
  | cons a t ih => simp [List.flatMap_cons, List.countP_append, ih]

theorem countP_replicate {α : Type} (n : ℕ) (a : α) (p : α → Bool) :
    (List.replicate n a).countP p = if p a then n else 0 := by
  induction n with
  | zero => simp
  | succ m ih =>
    rw [List.replicate_succ, List.countP_cons, ih]
    by_cases h : p a <;> simp [h]

theorem sum_map_single {α : Type} [DecidableEq α] (l : List α) (hl : l.Nodup) (a : α)
    (ha : a ∈ l) (c : α → ℕ) :
    (l.map (fun x => if x = a then c x else 0)).sum = c a := by
  induction l with
  | nil => simp at ha
  | cons b t ih =>
    rcases List.mem_cons.mp ha with hba | hat
    · subst hba
      have hnt : a ∉ t := (List.nodup_cons.mp hl).1
      simp only [List.map_cons, List.sum_cons, eq_self_iff_true, if_true]
      have hz : (t.map (fun x => if x = a then c x else 0)).sum = 0 := by
        apply List.sum_eq_zero
        intro y hy
        rcases List.mem_map.mp hy with ⟨x, hx, hxy⟩
        have hxa : x ≠ a := fun hh => hnt (hh ▸ hx)
        simp [hxa] at hxy
        omega
      omega
    · have hba : b ≠ a := by
        intro hh
        exact (List.nodup_cons.mp hl).1 (hh ▸ hat)
      simp only [List.map_cons, List.sum_cons, if_neg hba]
      rw [ih (List.nodup_cons.mp hl).2 hat]
      omega

theorem mem_enumFrom_snd {α : Type} (l : List α) :
    ∀ (n : ℕ) (p : ℕ × α), p ∈ l.enumFrom n → p.2 ∈ l := by
  induction l with
  | nil => intro n p hp; simp [List.enumFrom] at hp
  | cons a t ih =>
    intro n p hp
    rw [List.enumFrom] at hp
    rcases List.mem_cons.mp hp with h | h
    · simp [h]
    · exact List.mem_cons_of_mem _ (ih (n + 1) p h)

theorem mem_enum_snd {α : Type} (l : List α) (p : ℕ × α) (hp : p ∈ l.enum) : p.2 ∈ l :=
  mem_enumFrom_snd l 0 p hp

-- ─── Membership characterisations of the shift catalogue ───

theorem mem_raw9 (s rh : ℕ) : rh ∈ raw9 s ↔ s ≤ rh ∧ rh ≤ s + 8 := by
  simp [raw9]
  omega

theorem mem_ptHours (s hr : ℕ) : hr ∈ ptHours s ↔ s ≤ hr ∧ hr ≤ s + 3 := by
  simp [ptHours]
  omega

theorem mem_sameDay9 (s h : ℕ) : h ∈ sameDay9 s ↔ s ≤ h ∧ h ≤ s + 8 ∧ h < 24 := by
  simp [sameDay9, List.mem_filter, mem_raw9]
  omega

theorem mem_nextDay9 (s h : ℕ) : h ∈ nextDay9 s ↔ s ≤ h + 24 ∧ h + 24 ≤ s + 8 := by
  simp only [nextDay9, List.mem_map, List.mem_filter, mem_raw9, decide_eq_true_eq]
  constructor
  · rintro ⟨rh, ⟨⟨h1, h2⟩, h3⟩, rfl⟩
    omega
  · rintro ⟨h1, h2⟩
    exact ⟨h + 24, ⟨⟨by omega, by omega⟩, by omega⟩, by omega⟩

theorem mem_ALL_DAYS (d : ℕ) : d ∈ ALL_DAYS ↔ d < 7 := by
  simp [ALL_DAYS]
  omega

theorem mem_MON_FRI (d : ℕ) : d ∈ MON_FRI ↔ d < 5 := by
  simp [MON_FRI]
  omega

theorem mem_FT_STARTS (s : ℕ) : s ∈ FT_STARTS ↔ (5 ≤ s ∧ s ≤ 15) ∨ (20 ≤ s ∧ s ≤ 23) := by
  simp [FT_STARTS]
  omega

theorem mem_PT_STARTS (s : ℕ) : s ∈ PT_STARTS ↔ 5 ≤ s ∧ s ≤ 20 := by
  simp [PT_STARTS]
  omega

theorem mem_WFT_STARTS (s : ℕ) : s ∈ WFT_STARTS ↔ 5 ≤ s ∧ s ≤ 15 := by
  simp [WFT_STARTS]
  omega

-- ─── Membership characterisations of the active-template lists ───

theorem mem_ftVars (input : SolverInput) (s p : ℕ) :
    (s, p) ∈ ftVars input ↔
      s ∈ FT_STARTS ∧ p ∈ dayOffDays input ∧ isActiveFT input.oph s p = true := by
  simp only [ftVars, List.mem_flatMap, List.mem_map, List.mem_filter, Prod.mk.injEq]
  constructor
  · rintro ⟨a, ha, b, ⟨hb, hact⟩, rfl, rfl⟩
    exact ⟨ha, hb, hact⟩
  · rintro ⟨hs, hp, hact⟩
    exact ⟨s, hs, p, ⟨hp, hact⟩, rfl, rfl⟩

theorem mem_ptVars (input : SolverInput) (s p : ℕ) :
    (s, p) ∈ ptVars input ↔
      usePT input = true ∧ s ∈ PT_STARTS ∧ p ∈ dayOffDays input ∧
        isActivePT input.oph s p = true := by
  rw [ptVars]
  by_cases hu : usePT input
  · simp only [hu, if_true, List.mem_flatMap, List.mem_map, List.mem_filter, Prod.mk.injEq]
    constructor
    · rintro ⟨a, ha, b, ⟨hb, hact⟩, rfl, rfl⟩
      exact ⟨trivial, ha, hb, hact⟩
    · rintro ⟨-, hs, hp, hact⟩
      exact ⟨s, hs, p, ⟨hp, hact⟩, rfl, rfl⟩
  · simp [hu]

theorem mem_wftVars (input : SolverInput) (s : ℕ) :
    s ∈ wftVars input ↔
      useWFT input = true ∧ s ∈ WFT_STARTS ∧ isActiveWFT input.oph s = true := by
  rw [wftVars]
  by_cases hu : useWFT input
  · simp [hu, List.mem_filter]
  · simp [hu]

theorem mem_wptStarts (input : SolverInput) (s : ℕ) :
    s ∈ wptStarts input ↔
      useWPT input = true ∧ s ∈ PT_STARTS ∧ isActiveWPT input.oph s = true := by
  rw [wptStarts]
  by_cases hu : useWPT input
  · simp [hu, List.mem_filter]
  · simp [hu]

-- ─── Shape of emitted workers ───

/-- Every worker emitted by `buildRoster` is one of the four template shapes,
with its fields determined by the template that spawned it. -/
theorem workers_shape (sol : List (String × ℚ)) (oph : Oph) (dds : List ℕ) :
    ∀ w ∈ (buildRoster sol oph dds).workers,
      (∃ s ∈ FT_STARTS, ∃ p ∈ dds, w.type = WType.FT ∧ w.shiftStart = s ∧ w.shiftEnd = s + 9 ∧
          w.dayOff = some p ∧ w.productiveHours = (raw9 s).map (fun h => h % 24)) ∨
      (∃ s ∈ PT_STARTS, ∃ p ∈ dds, w.type = WType.PT ∧ w.shiftStart = s ∧ w.shiftEnd = s + 4 ∧
          w.dayOff = some p ∧ w.productiveHours = ptHours s) ∨
      (∃ s ∈ WFT_STARTS, w.type = WType.WFT ∧ w.shiftStart = s ∧ w.shiftEnd = s + 9 ∧
          w.dayOff = none ∧ w.productiveHours = raw9 s) ∨
      (∃ s ∈ PT_STARTS, w.type = WType.WPT ∧ w.shiftStart = s ∧ w.shiftEnd = s + 4 ∧
          w.dayOff = none ∧ w.productiveHours = ptHours s) := by
  intro w hw
  rcases List.mem_map.mp hw with ⟨q, hq, hwq⟩
  have hq2 : q.2 ∈ protoWorkers sol dds := mem_enum_snd _ _ hq
  have hfields : w.type = q.2.type ∧ w.shiftStart = q.2.shiftStart ∧
      w.shiftEnd = q.2.shiftEnd ∧ w.dayOff = q.2.dayOff ∧
      w.productiveHours = q.2.productiveHours := by
    rw [← hwq]
    exact ⟨rfl, rfl, rfl, rfl, rfl⟩
  obtain ⟨ht, hss, hse, hdo, hph⟩ := hfields
  rw [protoWorkers] at hq2
  rcases List.mem_append.mp hq2 with hq3 | hq3
  rcases List.mem_append.mp hq3 with hq4 | hq4
  rcases List.mem_append.mp hq4 with hq5 | hq5
  · left
    rcases List.mem_flatMap.mp hq5 with ⟨s, hs, h2⟩
    rcases List.mem_flatMap.mp h2 with ⟨p, hp, h3⟩
    have heq := (List.mem_replicate.mp h3).2
    refine ⟨s, hs, p, hp, ?_, ?_, ?_, ?_, ?_⟩ <;> rw [heq] at ht hss hse hdo hph <;> assumption
  · right; left
    rcases List.mem_flatMap.mp hq5 with ⟨s, hs, h2⟩
    rcases List.mem_flatMap.mp h2 with ⟨p, hp, h3⟩
    have heq := (List.mem_replicate.mp h3).2
    refine ⟨s, hs, p, hp, ?_, ?_, ?_, ?_, ?_⟩ <;> rw [heq] at ht hss hse hdo hph <;> assumption
  · right; right; left
    rcases List.mem_flatMap.mp hq4 with ⟨s, hs, h3⟩
    have heq := (List.mem_replicate.mp h3).2
    refine ⟨s, hs, ?_, ?_, ?_, ?_, ?_⟩ <;> rw [heq] at ht hss hse hdo hph <;> assumption
  · right; right; right
    rcases List.mem_flatMap.mp hq3 with ⟨s, hs, h3⟩
    have heq := (List.mem_replicate.mp h3).2
    refine ⟨s, hs, ?_, ?_, ?_, ?_, ?_⟩ <;> rw [heq] at ht hss hse hdo hph <;> assumption

-- ─── Claim C2 ───

/-- Counterexample to C2 as stated: `buildRoster` of a single overnight FT
worker (start 20:00, day off Tuesday) makes the coverage matrix receive a
contribution from that worker on its day off — the Monday-night shift wraps
into Tuesday 00:00–04:00. -/
theorem claimC2_cex :
    ∃ w ∈ (buildRoster solFT20 ophZero MON_FRI).workers,
      w.type = WType.FT ∧ w.dayOff = some 1 ∧ workerContrib w 1 0 ≠ 0 ∧
        (buildRoster solFT20 ophZero MON_FRI).coverage 1 0 ≠ 0 := by decide

/-- C2 (amended): an FT/PT worker with day off `p` contributes nothing to day
`p` at hours at or after its shift start; any contribution it makes to day `p`
is an overnight wrap hour (`h < shiftStart`) of an overnight FT shift
(`shiftStart ≥ 20`) started on the previous day. -/
theorem claimC2 (sol : List (String × ℚ)) (oph : Oph) (dds : List ℕ) (w : WorkerSlot)
    (hw : w ∈ (buildRoster sol oph dds).workers)
    (hty : w.type = WType.FT ∨ w.type = WType.PT) (p : ℕ) (hp : w.dayOff = some p) :
    (∀ h, w.shiftStart ≤ h → workerContrib w p h = 0) ∧
    (∀ h, workerContrib w p h ≠ 0 →
      h < w.shiftStart ∧ 20 ≤ w.shiftStart ∧ w.type = WType.FT) := by
  have hAD : activeDays w = ALL_DAYS.filter (fun d => decide (some d ≠ w.dayOff)) := by
    rcases hty with h | h <;> simp [activeDays, h]
  constructor
  · intro h hge
    rw [workerContrib, hAD]
    apply List.sum_eq_zero
    intro y hy
    rcases List.mem_map.mp hy with ⟨d2, hd2, rfl⟩
    have hd2p : d2 ≠ p := by
      have hne := (List.mem_filter.mp hd2).2
      simp only [hp, decide_eq_true_eq] at hne
      intro hh
      exact hne (by rw [hh])
    rw [List.length_eq_zero, List.filter_eq_nil_iff]
    intro hr hhr
    simp only [Bool.and_eq_true, decide_eq_true_eq, not_and]
    rintro ⟨h24, htarget⟩ hreq
    by_cases hlt : hr < w.shiftStart
    · omega
    · rw [if_neg hlt] at htarget
      exact hd2p htarget
  · intro h hne
    rw [workerContrib, hAD] at hne
    have hstep : ∃ d2 ∈ ALL_DAYS.filter (fun d => decide (some d ≠ w.dayOff)),
        (w.productiveHours.filter (fun hr =>
          decide (hr < 24) &&
            decide ((if hr < w.shiftStart then (d2 + 1) % 7 else d2) = p) &&
            decide (hr = h))).length ≠ 0 := by
      by_contra hcon
      push_neg at hcon
      apply hne
      apply List.sum_eq_zero
      intro y hy
      rcases List.mem_map.mp hy with ⟨d2, hd2, rfl⟩
      exact hcon d2 hd2
    rcases hstep with ⟨d2, hd2, hlen⟩
    have hd2p : d2 ≠ p := by
      have hne2 := (List.mem_filter.mp hd2).2
      simp only [hp, decide_eq_true_eq] at hne2
      intro hh
      exact hne2 (by rw [hh])
    have hex : ∃ hr ∈ w.productiveHours,
        (decide (hr < 24) &&
          decide ((if hr < w.shiftStart then (d2 + 1) % 7 else d2) = p) &&
          decide (hr = h)) = true := by
      by_contra hcon
      push_neg at hcon
      apply hlen
      rw [List.length_eq_zero, List.filter_eq_nil_iff]
      intro a ha
      simpa using hcon a ha
    rcases hex with ⟨hr, hhr, hcond⟩
    simp only [Bool.and_eq_true, decide_eq_true_eq] at hcond
    obtain ⟨⟨h24, htarget⟩, hreq⟩ := hcond
    have hwrap : hr < w.shiftStart := by
      by_contra hge2
      rw [if_neg hge2] at htarget
      exact hd2p htarget
    refine ⟨by omega, ?_⟩
    rcases workers_shape sol oph dds w hw with hFT | hPT | hWFT | hWPT
    · obtain ⟨s, hs, p2, hp2, ht, hss, hse, hdo, hph⟩ := hFT
      rcases List.mem_map.mp (hph ▸ hhr) with ⟨rh, hrh, hrmod⟩
      rw [mem_raw9] at hrh
      rcases (mem_FT_STARTS s).mp hs with hday | hnight
      · exfalso
        have hlt24 : rh < 24 := by omega
        rw [Nat.mod_eq_of_lt hlt24] at hrmod
        omega
      · exact ⟨by omega, ht⟩
    · exfalso
      obtain ⟨s, hs, p2, hp2, ht, hss, hse, hdo, hph⟩ := hPT
      have hhr2 := (mem_ptHours s hr).mp (hph ▸ hhr)
      omega
    · exfalso
      obtain ⟨s, hs, ht, -⟩ := hWFT
      rcases hty with hh | hh <;> rw [hh] at ht <;> exact WType.noConfusion ht
    · exfalso
      obtain ⟨s, hs, ht, -⟩ := hWPT
      rcases hty with hh | hh <;> rw [hh] at ht <;> exact WType.noConfusion ht

/-- Witness for the amended C2 at the concrete overnight worker. -/
theorem claimC2_w :
    (wFT20 ∈ (buildRoster solFT20 ophZero MON_FRI).workers ∧
      (wFT20.type = WType.FT ∨ wFT20.type = WType.PT) ∧ wFT20.dayOff = some 1) ∧
    ((∀ h, wFT20.shiftStart ≤ h → workerContrib wFT20 1 h = 0) ∧
      (∀ h, workerContrib wFT20 1 h ≠ 0 →
        h < wFT20.shiftStart ∧ 20 ≤ wFT20.shiftStart ∧ wFT20.type = WType.FT)) :=
  ⟨⟨by decide, by decide, by decide⟩,
    claimC2 solFT20 ophZero MON_FRI wFT20 (by decide) (by decide) 1 (by decide)⟩

-- ─── Claim C3 ───

/-- Counterexample to C3 as stated: an emitted FT worker has 9 productive
hours, not 8 — under the smearing model the break is not removed from
`productiveHours` (`raw9(s).map(h => h % 24)` keeps all 9 raw hours). -/
theorem claimC3_cex :
    ∃ w ∈ (buildRoster solFT5 ophZero MON_FRI).workers,
      w.type = WType.FT ∧ w.productiveHours.length ≠ 8 := by decide

/-- C3 (amended): every emitted FT or WFT worker has exactly 9 productive
hours (the break is smeared into LP coefficients rather than removed from the
stored hour list); every PT or WPT worker has exactly 4. -/
theorem claimC3 (sol : List (String × ℚ)) (oph : Oph) (dds : List ℕ) (w : WorkerSlot)
    (hw : w ∈ (buildRoster sol oph dds).workers) :
    ((w.type = WType.FT ∨ w.type = WType.WFT) → w.productiveHours.length = 9) ∧
    ((w.type = WType.PT ∨ w.type = WType.WPT) → w.productiveHours.length = 4) := by
  rcases workers_shape sol oph dds w hw with hC | hC | hC | hC
  · obtain ⟨s, hs, p2, hp2, ht, hss, hse, hdo, hph⟩ := hC
    constructor
    · intro _
      rw [hph, List.length_map]
      simp [raw9]
    · intro hcon
      rcases hcon with hh | hh <;> rw [hh] at ht <;> exact WType.noConfusion ht
  · obtain ⟨s, hs, p2, hp2, ht, hss, hse, hdo, hph⟩ := hC
    constructor
    · intro hcon
      rcases hcon with hh | hh <;> rw [hh] at ht <;> exact WType.noConfusion ht
    · intro _
      rw [hph]
      simp [ptHours]
  · obtain ⟨s, hs, ht, hss, hse, hdo, hph⟩ := hC
    constructor
    · intro _
      rw [hph]
      simp [raw9]
    · intro hcon
      rcases hcon with hh | hh <;> rw [hh] at ht <;> exact WType.noConfusion ht
  · obtain ⟨s, hs, ht, hss, hse, hdo, hph⟩ := hC
    constructor
    · intro hcon
      rcases hcon with hh | hh <;> rw [hh] at ht <;> exact WType.noConfusion ht
    · intro _
      rw [hph]
      simp [ptHours]

/-- Witness for the amended C3 at the concrete day-shift FT worker. -/
theorem claimC3_w :
    (wFT5 ∈ (buildRoster solFT5 ophZero MON_FRI).workers) ∧
    (((wFT5.type = WType.FT ∨ wFT5.type = WType.WFT) → wFT5.productiveHours.length = 9) ∧
      ((wFT5.type = WType.PT ∨ wFT5.type = WType.WPT) → wFT5.productiveHours.length = 4)) :=
  ⟨by decide, claimC3 solFT5 ophZero MON_FRI wFT5 (by decide)⟩

-- ─── Counting helpers for the roster builder ───

theorem countP_enumFrom_setId (l : List WorkerSlot) (pr : WorkerSlot → Bool)
    (hpr : ∀ w n, pr { w with id := n } = pr w) :
    ∀ n, ((l.enumFrom n).map (fun q => { q.2 with id := q.1 + 1 })).countP pr = l.countP pr := by
  induction l with
  | nil => intro n; rfl
  | cons a t ih =>
    intro n
    rw [List.enumFrom]
    simp only [List.map_cons, List.countP_cons, ih (n + 1), hpr]

theorem ids_enumFrom (l : List WorkerSlot) :
    ∀ n, (((l.enumFrom n).map (fun q => { q.2 with id := q.1 + 1 })).map (fun w => w.id)) =
      List.range' (n + 1) l.length := by
  induction l with
  | nil => intro n; rfl
  | cons a t ih =>
    intro n
    rw [List.enumFrom]
    simp only [List.map_cons, List.length_cons, ih (n + 1)]
    rfl

theorem countP_flatMap_replicate {α : Type} [DecidableEq α] (A : List α) (hA : A.Nodup)
    (c : α → ℕ) (f : α → WorkerSlot) (pr : WorkerSlot → Bool) (a : α) (ha : a ∈ A)
    (hmatch : ∀ x ∈ A, (pr (f x) = true ↔ x = a)) :
    (A.flatMap (fun x => List.replicate (c x) (f x))).countP pr = c a := by
  rw [countP_flatMap]
  have hpt : ∀ x ∈ A, (List.replicate (c x) (f x)).countP pr = if x = a then c x else 0 := by
    intro x hx
    rw [countP_replicate]
    by_cases hxa : x = a
    · rw [if_pos ((hmatch x hx).mpr hxa), if_pos hxa]
    · rw [if_neg, if_neg hxa]
      intro hcon
      exact hxa ((hmatch x hx).mp hcon)
  rw [List.map_congr_left hpt]
  exact sum_map_single A hA a ha c

theorem countP_flatMap_replicate_zero {α : Type} (A : List α)
    (c : α → ℕ) (f : α → WorkerSlot) (pr : WorkerSlot → Bool)
    (hnone : ∀ x ∈ A, pr (f x) = false) :
    (A.flatMap (fun x => List.replicate (c x) (f x))).countP pr = 0 := by
  rw [countP_flatMap]
  apply List.sum_eq_zero
  intro y hy
  rcases List.mem_map.mp hy with ⟨x, hx, rfl⟩
  rw [countP_replicate, if_neg]
  simp [hnone x hx]

theorem countP_flatMap2_replicate (A B : List ℕ) (hA : A.Nodup) (hB : B.Nodup)
    (c : ℕ → ℕ → ℕ) (f : ℕ → ℕ → WorkerSlot) (pr : WorkerSlot → Bool) (a b : ℕ)
    (ha : a ∈ A) (hb : b ∈ B)
    (hmatch : ∀ x ∈ A, ∀ y ∈ B, (pr (f x y) = true ↔ (x = a ∧ y = b))) :
    (A.flatMap (fun x => B.flatMap (fun y => List.replicate (c x y) (f x y)))).countP pr =
      c a b := by
  rw [countP_flatMap]
  have hinner : ∀ x ∈ A,
      ((B.flatMap (fun y => List.replicate (c x y) (f x y))).countP pr) =
        if x = a then c x b else 0 := by
    intro x hx
    by_cases hxa : x = a
    · rw [if_pos hxa]
      exact countP_flatMap_replicate B hB (c x) (f x) pr b hb (fun y hy => by
        rw [hmatch x hx y hy]
        constructor
        · rintro ⟨-, hyb⟩
          exact hyb
        · intro hyb
          exact ⟨hxa, hyb⟩)
    · rw [if_neg hxa]
      rw [countP_flatMap]
      apply List.sum_eq_zero
      intro z hz
      rcases List.mem_map.mp hz with ⟨y, hy, rfl⟩
      rw [countP_replicate, if_neg]
      intro hcon
      exact hxa ((hmatch x hx y hy).mp hcon).1
  rw [List.map_congr_left hinner]
  exact sum_map_single A hA a ha (fun x => c x b)

theorem countP_flatMap2_replicate_zero (A B : List ℕ)
    (c : ℕ → ℕ → ℕ) (f : ℕ → ℕ → WorkerSlot) (pr : WorkerSlot → Bool)
    (hnone : ∀ x ∈ A, ∀ y ∈ B, pr (f x y) = false) :
    (A.flatMap (fun x => B.flatMap (fun y => List.replicate (c x y) (f x y)))).countP pr =
      0 := by
  rw [countP_flatMap]
  apply List.sum_eq_zero
  intro z hz
  rcases List.mem_map.mp hz with ⟨x, hx, rfl⟩
  exact countP_flatMap_replicate_zero B (c x) (f x) pr (fun y hy => hnone x hx y hy)

-- ─── Claim C9 ───

/-- C9: for every primal solution map, `buildRoster` emits for each template
exactly `max(0, round(x_T))` worker records (`cntOf`; missing variables count
as 0, negative or fractional primals are rounded and clamped at 0), the
emitted ids are exactly `1..N` consecutive, and `totalWorkers` equals the
number of emitted records. -/
theorem claimC9 (sol : List (String × ℚ)) (oph : Oph) (dds : List ℕ) (hdds : dds.Nodup) :
    (∀ s p, s ∈ FT_STARTS → p ∈ dds →
      ((buildRoster sol oph dds).workers.countP (fun w =>
        decide (w.type = WType.FT ∧ w.shiftStart = s ∧ w.dayOff = some p))) =
        cntOf sol (varFT s p)) ∧
    (∀ s p, s ∈ PT_STARTS → p ∈ dds →
      ((buildRoster sol oph dds).workers.countP (fun w =>
        decide (w.type = WType.PT ∧ w.shiftStart = s ∧ w.dayOff = some p))) =
        cntOf sol (varPT s p)) ∧
    (∀ s, s ∈ WFT_STARTS →
      ((buildRoster sol oph dds).workers.countP (fun w =>
        decide (w.type = WType.WFT ∧ w.shiftStart = s))) = cntOf sol (varWFT s)) ∧
    (∀ s, s ∈ PT_STARTS →
      ((buildRoster sol oph dds).workers.countP (fun w =>
        decide (w.type = WType.WPT ∧ w.shiftStart = s))) = cntOf sol (varWPT s)) ∧
    ((buildRoster sol oph dds).workers.map (fun w => w.id) =
      List.range' 1 (buildRoster sol oph dds).workers.length) ∧
    (∀ (input : SolverInput) (r1 : HighsResult) (ph2 : Except Unit HighsResult),
      (driver input r1 ph2).totalWorkers = (driver input r1 ph2).workers.length) := by
  have hwrk : (buildRoster sol oph dds).workers =
      ((protoWorkers sol dds).enum.map (fun q => { q.2 with id := q.1 + 1 })) := rfl
  have hFTn : FT_STARTS.Nodup := by decide
  have hPTn : PT_STARTS.Nodup := by decide
  have hWFTn : WFT_STARTS.Nodup := by decide
  refine ⟨?_, ?_, ?_, ?_, ?_, ?_⟩
  · intro s p hs hp
    have hpr : ∀ (w : WorkerSlot) (n : ℕ),
        (fun w => decide (w.type = WType.FT ∧ w.shiftStart = s ∧ w.dayOff = some p))
            { w with id := n } =
          (fun w => decide (w.type = WType.FT ∧ w.shiftStart = s ∧ w.dayOff = some p)) w :=
      fun w n => rfl
    rw [hwrk, List.enum, countP_enumFrom_setId _ _ hpr 0, protoWorkers]
    rw [List.countP_append, List.countP_append, List.countP_append]
    rw [ftProtos, ptProtos, wftProtos, wptProtos]
    rw [countP_flatMap2_replicate FT_STARTS dds hFTn hdds _ _ _ s p hs hp
      (fun x hx y hy => by simp)]
    rw [countP_flatMap2_replicate_zero _ _ _ _ _ (fun x hx y hy => by simp)]
    rw [countP_flatMap_replicate_zero _ _ _ _ (fun x hx => by simp)]
    rw [countP_flatMap_replicate_zero _ _ _ _ (fun x hx => by simp)]
    omega
  · intro s p hs hp
    have hpr : ∀ (w : WorkerSlot) (n : ℕ),
        (fun w => decide (w.type = WType.PT ∧ w.shiftStart = s ∧ w.dayOff = some p))
            { w with id := n } =
          (fun w => decide (w.type = WType.PT ∧ w.shiftStart = s ∧ w.dayOff = some p)) w :=
      fun w n => rfl
    rw [hwrk, List.enum, countP_enumFrom_setId _ _ hpr 0, protoWorkers]
    rw [List.countP_append, List.countP_append, List.countP_append]
    rw [ftProtos, ptProtos, wftProtos, wptProtos]
    rw [countP_flatMap2_replicate_zero _ _ _ _ _ (fun x hx y hy => by simp)]
    rw [countP_flatMap2_replicate PT_STARTS dds hPTn hdds _ _ _ s p hs hp
      (fun x hx y hy => by simp)]
    rw [countP_flatMap_replicate_zero _ _ _ _ (fun x hx => by simp)]
    rw [countP_flatMap_replicate_zero _ _ _ _ (fun x hx => by simp)]
    omega
  · intro s hs
    have hpr : ∀ (w : WorkerSlot) (n : ℕ),
        (fun w => decide (w.type = WType.WFT ∧ w.shiftStart = s)) { w with id := n } =
          (fun w => decide (w.type = WType.WFT ∧ w.shiftStart = s)) w :=
      fun w n => rfl
    rw [hwrk, List.enum, countP_enumFrom_setId _ _ hpr 0, protoWorkers]
    rw [List.countP_append, List.countP_append, List.countP_append]
    rw [ftProtos, ptProtos, wftProtos, wptProtos]
    rw [countP_flatMap2_replicate_zero _ _ _ _ _ (fun x hx y hy => by simp)]
    rw [countP_flatMap2_replicate_zero _ _ _ _ _ (fun x hx y hy => by simp)]
    rw [countP_flatMap_replicate WFT_STARTS hWFTn _ _ _ s hs (fun x hx => by simp)]
    rw [countP_flatMap_replicate_zero _ _ _ _ (fun x hx => by simp)]
    omega
  · intro s hs
    have hpr : ∀ (w : WorkerSlot) (n : ℕ),
        (fun w => decide (w.type = WType.WPT ∧ w.shiftStart = s)) { w with id := n } =
          (fun w => decide (w.type = WType.WPT ∧ w.shiftStart = s)) w :=
      fun w n => rfl
    rw [hwrk, List.enum, countP_enumFrom_setId _ _ hpr 0, protoWorkers]
    rw [List.countP_append, List.countP_append, List.countP_append]
    rw [ftProtos, ptProtos, wftProtos, wptProtos]
    rw [countP_flatMap2_replicate_zero _ _ _ _ _ (fun x hx y hy => by simp)]
    rw [countP_flatMap2_replicate_zero _ _ _ _ _ (fun x hx y hy => by simp)]
    rw [countP_flatMap_replicate_zero _ _ _ _ (fun x hx => by simp)]
    rw [countP_flatMap_replicate PT_STARTS hPTn _ _ _ s hs (fun x hx => by simp)]
    omega
  · rw [hwrk, List.enum, ids_enumFrom _ 0]
    congr 1
    rw [List.length_map, List.enumFrom_length]
  · intro input r1 ph2
    rw [driver.eq_def]
    split
    · rfl
    · rfl

/-- Witness for C9 at a concrete primal map with an integral and a negative
fractional value. -/
theorem claimC9_w :
    (MON_FRI.Nodup ∧ 5 ∈ FT_STARTS ∧ 0 ∈ MON_FRI) ∧
    ((buildRoster solMixed ophZero MON_FRI).workers.countP (fun w =>
      decide (w.type = WType.FT ∧ w.shiftStart = 5 ∧ w.dayOff = some 0))) =
      cntOf solMixed (varFT 5 0) :=
  ⟨⟨by decide, by decide, by decide⟩,
    (claimC9 solMixed ophZero MON_FRI (by decide)).1 5 0 (by decide) (by decide)⟩

-- ─── Claim C7 ───

/-- C7: on a non-optimal phase-1 status the engine returns a terminal result
with status `"infeasible"` (when the solver said `Infeasible`) or `"error"`
(otherwise), an empty worker list, all-zero coverage and required matrices,
and an `errorMessage` naming the failing phase; and over all driver runs,
`errorMessage` is present iff the status is not `"optimal"`. -/
theorem claimC7 (input : SolverInput) (r1 : HighsResult) (ph2 : Except Unit HighsResult)
    (h1 : r1.status ≠ "Optimal") :
    (driver input r1 ph2).status = (if r1.status = "Infeasible" then "infeasible" else "error") ∧
    (driver input r1 ph2).workers = [] ∧
    (driver input r1 ph2).totalWorkers = 0 ∧
    (driver input r1 ph2).ftCount = 0 ∧ (driver input r1 ph2).ptCount = 0 ∧
    (driver input r1 ph2).wftCount = 0 ∧ (driver input r1 ph2).wptCount = 0 ∧
    (∀ d h, (driver input r1 ph2).coverage d h = 0 ∧ (driver input r1 ph2).required d h = 0) ∧
    (driver input r1 ph2).errorMessage = some ("Phase 1 solver status: " ++ r1.status) ∧
    (∀ (input2 : SolverInput) (r : HighsResult) (ph : Except Unit HighsResult),
      ((driver input2 r ph).errorMessage ≠ none ↔ (driver input2 r ph).status ≠ "optimal")) := by
  have hD : driver input r1 ph2 =
      { status := if r1.status = "Infeasible" then "infeasible" else "error"
        workers := []
        totalWorkers := 0
        ftCount := 0, ptCount := 0, wftCount := 0, wptCount := 0
        coverage := zeroMatrix
        required := zeroMatrix
        errorMessage := some ("Phase 1 solver status: " ++ r1.status) } := by
    rw [driver.eq_def, if_pos h1]
  rw [hD]
  refine ⟨rfl, rfl, rfl, rfl, rfl, rfl, rfl, fun d h => ⟨rfl, rfl⟩, rfl, ?_⟩
  intro input2 r ph
  rw [driver.eq_def]
  split
  · constructor
    · intro _
      split
      · show ("infeasible" : String) ≠ "optimal"
        decide
      · show ("error" : String) ≠ "optimal"
        decide
    · intro _
      simp
  · simp

/-- Witness for C7 at a concrete infeasible phase-1 outcome. -/
theorem claimC7_w :
    (r1Infeasible.status ≠ "Optimal") ∧
    (driver inputSpike r1Infeasible ph2Err).status = "infeasible" ∧
    (driver inputSpike r1Infeasible ph2Err).errorMessage =
      some "Phase 1 solver status: Infeasible" := by
  have h := claimC7 inputSpike r1Infeasible ph2Err (by decide)
  refine ⟨by decide, ?_, ?_⟩
  · rw [h.1]
    decide
  · rw [h.2.2.2.2.2.2.2.2.1]
    decide

-- ─── Claim C6 ───

/-- C6: phase 2 is attempted iff `round(partTimerCapPct) > 0` (when the cap
rounds to 0 the driver result does not depend on the phase-2 oracle at all);
when attempted and the phase-2 status is `Optimal` the phase-2 assignment is
used; on a non-optimal phase-2 status or a thrown phase-2 error the phase-1
assignment is silently used; and the returned status is `"optimal"` in every
such case. -/
theorem claimC6 (input : SolverInput) (r1 : HighsResult) (h1 : r1.status = "Optimal") :
    (runPhase2 input = true ↔ 0 < jsRound input.config.partTimerCapPct) ∧
    (jsRound input.config.partTimerCapPct ≤ 0 →
      ∀ o1 o2, driver input r1 o1 = driver input r1 o2) ∧
    (∀ r2 : HighsResult, r2.status = "Optimal" → runPhase2 input = true →
      (driver input r1 (Except.ok r2)).workers =
        (buildRoster r2.columns input.oph
          (if input.config.allowWeekendDayOff then ALL_DAYS else MON_FRI)).workers) ∧
    (∀ r2 : HighsResult, r2.status ≠ "Optimal" →
      driver input r1 (Except.ok r2) = driver input r1 (Except.error ())) ∧
    ((driver input r1 (Except.error ())).workers =
      (buildRoster r1.columns input.oph
        (if input.config.allowWeekendDayOff then ALL_DAYS else MON_FRI)).workers) ∧
    (∀ o, (driver input r1 o).status = "optimal") := by
  have hno : ¬ (r1.status ≠ "Optimal") := by simp [h1]
  refine ⟨by simp [runPhase2], ?_, ?_, ?_, ?_, ?_⟩
  · intro hle o1 o2
    have hrp : runPhase2 input = false := by
      simp only [runPhase2, decide_eq_false_iff_not]
      omega
    rw [driver.eq_def, driver.eq_def, if_neg hno, if_neg hno]
    simp only [hrp, Bool.false_eq_true, if_false]
  · intro r2 hr2 hrp
    rw [driver.eq_def, if_neg hno]
    simp only [hrp, if_true, hr2, if_pos]
  · intro r2 hr2
    rw [driver.eq_def, driver.eq_def, if_neg hno, if_neg hno]
    rcases hb : runPhase2 input with hf | ht
    · simp only [Bool.false_eq_true, if_false]
    · simp only [if_true, if_neg hr2]
  · rw [driver.eq_def, if_neg hno]
    rcases hb : runPhase2 input with hf | ht
    · simp only [Bool.false_eq_true, if_false]
    · simp only [if_true]
  · intro o
    rw [driver.eq_def, if_neg hno]

/-- Witness for C6: with the part-timer cap rounding to 0 the driver ignores
the phase-2 oracle. -/
theorem claimC6_w :
    (r1Optimal.status = "Optimal" ∧ jsRound cfgNoPT.partTimerCapPct ≤ 0) ∧
    driver inputSpikeNoPT r1Optimal (Except.error ()) =
      driver inputSpikeNoPT r1Optimal (Except.ok r1Infeasible) :=
  ⟨⟨by decide, by decide⟩,
    (claimC6 inputSpikeNoPT r1Optimal (by decide)).2.1 (by decide)
      (Except.error ()) (Except.ok r1Infeasible)⟩

-- ─── Claim C4 ───

/-- C4: the phase-1 objective lists every active template variable (each as a
bare name, i.e. coefficient exactly 1, joined with `" + "`), and the phase-2
objective lists exactly the active FT and WFT variables while PT and WPT
variables are absent from it. -/
theorem claimC4 (input : SolverInput) :
    (lpObjTerms input 1 = ftNames input ++ ptNames input ++ wftNames input ++ wptNames input) ∧
    (∀ v, v ∈ lpObjTerms input 1 ↔ v ∈ lpGenerals input) ∧
    (lpObjTerms input 2 = ftNames input ++ wftNames input) ∧
    (∀ s p, varPT s p ∉ lpObjTerms input 2) ∧
    (∀ s, varWPT s ∉ lpObjTerms input 2) := by
  have h2 : lpObjTerms input 2 = ftNames input ++ wftNames input := by
    rw [lpObjTerms, if_neg (by omega)]
  refine ⟨rfl, fun v => by rw [lpObjTerms, lpGenerals, if_pos rfl], h2, ?_, ?_⟩
  · intro s p hmem
    rw [h2] at hmem
    rcases List.mem_append.mp hmem with hm | hm
    · rcases List.mem_map.mp hm with ⟨t, -, ht⟩
      exact varPT_ne_varFT s p t.1 t.2 ht.symm
    · rcases List.mem_map.mp hm with ⟨t, -, ht⟩
      exact varPT_ne_varWFT s p t ht.symm
  · intro s hmem
    rw [h2] at hmem
    rcases List.mem_append.mp hmem with hm | hm
    · rcases List.mem_map.mp hm with ⟨t, -, ht⟩
      exact varWPT_ne_varFT s t.1 t.2 ht.symm
    · rcases List.mem_map.mp hm with ⟨t, -, ht⟩
      exact varWPT_ne_varWFT s t ht.symm

/-- Witness instantiating C4 at a concrete input. -/
theorem claimC4_w :
    lpObjTerms inputSpike 2 = ftNames inputSpike ++ wftNames inputSpike :=
  (claimC4 inputSpike).2.2.1

-- ─── Coverage-row and term characterisations ───

theorem mem_coverageRows (input : SolverInput) (r : CoverageRow) :
    r ∈ coverageRows input ↔
      r.day < 7 ∧ r.hour < 24 ∧ input.oph r.day r.hour ≠ 0 ∧
        r.terms = coverTerms input.oph (ftVars input) (ptVars input) (wftVars input)
          (wptStarts input) r.day r.hour ∧
        r.terms ≠ [] ∧
        r.rhs = jsCeilDiv (input.oph r.day r.hour) input.config.productivityRate := by
  rcases r with ⟨rd, rh, rts, rr⟩
  constructor
  · intro hr
    rw [coverageRows] at hr
    rcases List.mem_flatMap.mp hr with ⟨d, hd, hin⟩
    rcases List.mem_filterMap.mp hin with ⟨h, hh, hsome⟩
    rw [List.mem_range] at hd hh
    by_cases h0 : input.oph d h = 0
    · rw [if_pos h0] at hsome
      exact absurd hsome (by simp)
    · rw [if_neg h0] at hsome
      by_cases hemp : (coverTerms input.oph (ftVars input) (ptVars input) (wftVars input)
          (wptStarts input) d h).isEmpty = true
      · rw [if_pos hemp] at hsome
        exact absurd hsome (by simp)
      · rw [if_neg hemp] at hsome
        have heq := Option.some.inj hsome
        obtain ⟨rfl, rfl, rfl, rfl⟩ : d = rd ∧ h = rh ∧
            coverTerms input.oph (ftVars input) (ptVars input) (wftVars input)
              (wptStarts input) d h = rts ∧
            jsCeilDiv (input.oph d h) input.config.productivityRate = rr := by
          injection heq with e1 e2 e3 e4
          exact ⟨e1, e2, e3, e4⟩
        refine ⟨hd, hh, h0, rfl, ?_, rfl⟩
        show coverTerms input.oph (ftVars input) (ptVars input) (wftVars input)
          (wptStarts input) d h ≠ []
        intro hnil
        rw [hnil] at hemp
        exact hemp rfl
  · rintro ⟨hd, hh, h0, hts, hne, hrhs⟩
    rw [coverageRows]
    apply List.mem_flatMap.mpr
    refine ⟨rd, List.mem_range.mpr hd, ?_⟩
    apply List.mem_filterMap.mpr
    refine ⟨rh, List.mem_range.mpr hh, ?_⟩
    rw [if_neg h0, if_neg ?_]
    · rw [← hts, ← hrhs]
    · rw [← hts]
      simpa using hne

theorem coverTerms_cases (oph : Oph) (ftv ptv : List (ℕ × ℕ)) (wftv wptv : List ℕ) (d h : ℕ)
    (t : LPTerm) (ht : t ∈ coverTerms oph ftv ptv wftv wptv d h) :
    (∃ sp, sp ∈ ftv ∧ (t = LPTerm.smeared (smearedCoeff oph sp.1 d h) (varFT sp.1 sp.2) ∨
        t = LPTerm.smeared (smearedCoeff oph sp.1 (prevDay d) (h + 24)) (varFT sp.1 sp.2))) ∨
    (∃ sp, sp ∈ ptv ∧ t = LPTerm.plain (varPT sp.1 sp.2)) ∨
    (∃ s, s ∈ wftv ∧ t = LPTerm.smeared (smearedCoeff oph s d h) (varWFT s)) ∨
    (∃ s, s ∈ wptv ∧ t = LPTerm.plain (varWPT s)) := by
  rw [coverTerms] at ht
  rcases List.mem_append.mp ht with h1 | hD
  rcases List.mem_append.mp h1 with h2 | hC
  rcases List.mem_append.mp h2 with hA | hB
  · left
    rcases List.mem_map.mp hA with ⟨sp, hsp, rfl⟩
    exact ⟨sp, (List.mem_filter.mp hsp).1, Or.inl rfl⟩
  · left
    rcases List.mem_map.mp hB with ⟨sp, hsp, rfl⟩
    exact ⟨sp, (List.mem_filter.mp hsp).1, Or.inr rfl⟩
  · right; left
    rcases List.mem_map.mp hC with ⟨sp, hsp, rfl⟩
    exact ⟨sp, (List.mem_filter.mp hsp).1, rfl⟩
  · by_cases hw : d = 5 ∨ d = 6
    · rw [if_pos hw] at hD
      rcases List.mem_append.mp hD with h3 | h3
      · right; right; left
        rcases List.mem_map.mp h3 with ⟨s, hs, rfl⟩
        exact ⟨s, (List.mem_filter.mp hs).1, rfl⟩
      · right; right; right
        rcases List.mem_map.mp h3 with ⟨s, hs, rfl⟩
        exact ⟨s, (List.mem_filter.mp hs).1, rfl⟩
    · rw [if_neg hw] at hD
      exact absurd hD (List.not_mem_nil t)

-- ─── Cap-zero exclusion lemmas ───

theorem flatMap_eq_nil_of {α β : Type} (A : List α) (f : α → List β)
    (h : ∀ x ∈ A, f x = []) : A.flatMap f = [] := by
  induction A with
  | nil => rfl
  | cons a t ih =>
    rw [List.flatMap_cons, h a (by simp), List.nil_append]
    exact ih (fun x hx => h x (by simp [hx]))

theorem ptVars_eq_nil (input : SolverInput) (hcap : capPt input = 0) : ptVars input = [] := by
  rw [ptVars, if_neg]
  simp [usePT, hcap]

theorem wptStarts_eq_nil_pt (input : SolverInput) (hcap : capPt input = 0) :
    wptStarts input = [] := by
  rw [wptStarts, if_neg]
  simp [useWPT, hcap]

theorem wftVars_eq_nil (input : SolverInput) (hcap : capWk input = 0) : wftVars input = [] := by
  rw [wftVars, if_neg]
  simp [useWFT, hcap]

theorem wptStarts_eq_nil_wk (input : SolverInput) (hcap : capWk input = 0) :
    wptStarts input = [] := by
  rw [wptStarts, if_neg]
  simp [useWPT, hcap]

theorem varPT_not_mem_generals (input : SolverInput) (hcap : capPt input = 0) (s p : ℕ) :
    varPT s p ∉ lpGenerals input := by
  rw [lpGenerals, ptNames, ptVars_eq_nil input hcap, wptNames, wptStarts_eq_nil_pt input hcap]
  simp only [List.map_nil, List.append_nil]
  intro hmem
  rcases List.mem_append.mp hmem with hm | hm
  · rcases List.mem_map.mp hm with ⟨t, -, ht⟩
    exact varPT_ne_varFT s p t.1 t.2 ht.symm
  · rcases List.mem_map.mp hm with ⟨t, -, ht⟩
    exact varPT_ne_varWFT s p t ht.symm

theorem varWPT_not_mem_generals_pt (input : SolverInput) (hcap : capPt input = 0) (s : ℕ) :
    varWPT s ∉ lpGenerals input := by
  rw [lpGenerals, ptNames, ptVars_eq_nil input hcap, wptNames, wptStarts_eq_nil_pt input hcap]
  simp only [List.map_nil, List.append_nil]
  intro hmem
  rcases List.mem_append.mp hmem with hm | hm
  · rcases List.mem_map.mp hm with ⟨t, -, ht⟩
    exact varWPT_ne_varFT s t.1 t.2 ht.symm
  · rcases List.mem_map.mp hm with ⟨t, -, ht⟩
    exact varWPT_ne_varWFT s t ht.symm

theorem varWFT_not_mem_generals (input : SolverInput) (hcap : capWk input = 0) (s : ℕ) :
    varWFT s ∉ lpGenerals input := by
  rw [lpGenerals, wftNames, wftVars_eq_nil input hcap, wptNames, wptStarts_eq_nil_wk input hcap]
  simp only [List.map_nil, List.append_nil]
  intro hmem
  rcases List.mem_append.mp hmem with hm | hm
  · rcases List.mem_map.mp hm with ⟨t, -, ht⟩
    exact varWFT_ne_varFT s t.1 t.2 ht.symm
  · rcases List.mem_map.mp hm with ⟨t, -, ht⟩
    exact varWFT_ne_varPT s t.1 t.2 ht.symm

theorem varWPT_not_mem_generals_wk (input : SolverInput) (hcap : capWk input = 0) (s : ℕ) :
    varWPT s ∉ lpGenerals input := by
  rw [lpGenerals, wftNames, wftVars_eq_nil input hcap, wptNames, wptStarts_eq_nil_wk input hcap]
  simp only [List.map_nil, List.append_nil]
  intro hmem
  rcases List.mem_append.mp hmem with hm | hm
  · rcases List.mem_map.mp hm with ⟨t, -, ht⟩
    exact varWPT_ne_varFT s t.1 t.2 ht.symm
  · rcases List.mem_map.mp hm with ⟨t, -, ht⟩
    exact varWPT_ne_varPT s t.1 t.2 ht.symm

theorem cntOf_eq_zero (sol : List (String × ℚ)) (v : String)
    (hnone : sol.lookup v = none) : cntOf sol v = 0 := by
  rw [cntOf, hnone]
  decide

theorem cntOf_eq_zero_of_not_mem (input : SolverInput) (sol : List (String × ℚ)) (v : String)
    (hsol : ∀ kv ∈ sol, kv.1 ∈ lpGenerals input) (hv : v ∉ lpGenerals input) :
    cntOf sol v = 0 := by
  apply cntOf_eq_zero
  apply lookup_eq_none_of_not_mem
  intro kv hkv hcon
  exact hv (hcon ▸ hsol kv hkv)

theorem ptProtos_eq_nil (input : SolverInput) (sol : List (String × ℚ)) (dds : List ℕ)
    (hcap : capPt input = 0) (hsol : ∀ kv ∈ sol, kv.1 ∈ lpGenerals input) :
    ptProtos sol dds = [] := by
  rw [ptProtos]
  apply flatMap_eq_nil_of
  intro s hs
  apply flatMap_eq_nil_of
  intro p hp
  rw [cntOf_eq_zero_of_not_mem input sol _ hsol (varPT_not_mem_generals input hcap s p)]
  rfl

theorem wptProtos_eq_nil_pt (input : SolverInput) (sol : List (String × ℚ))
    (hcap : capPt input = 0) (hsol : ∀ kv ∈ sol, kv.1 ∈ lpGenerals input) :
    wptProtos sol = [] := by
  rw [wptProtos]
  apply flatMap_eq_nil_of
  intro s hs
  rw [cntOf_eq_zero_of_not_mem input sol _ hsol (varWPT_not_mem_generals_pt input hcap s)]
  rfl

theorem wftProtos_eq_nil (input : SolverInput) (sol : List (String × ℚ))
    (hcap : capWk input = 0) (hsol : ∀ kv ∈ sol, kv.1 ∈ lpGenerals input) :
    wftProtos sol = [] := by
  rw [wftProtos]
  apply flatMap_eq_nil_of
  intro s hs
  rw [cntOf_eq_zero_of_not_mem input sol _ hsol (varWFT_not_mem_generals input hcap s)]
  rfl

theorem wptProtos_eq_nil_wk (input : SolverInput) (sol : List (String × ℚ))
    (hcap : capWk input = 0) (hsol : ∀ kv ∈ sol, kv.1 ∈ lpGenerals input) :
    wptProtos sol = [] := by
  rw [wptProtos]
  apply flatMap_eq_nil_of
  intro s hs
  rw [cntOf_eq_zero_of_not_mem input sol _ hsol (varWPT_not_mem_generals_wk input hcap s)]
  rfl

/-- Every variable mention in the model is one of the four name forms, built
from the corresponding active-template list. -/
theorem mentions_cases (input : SolverInput) (phase : ℕ) (totalCap : ℤ) (v : String)
    (hv : v ∈ lpVarMentions input phase totalCap) :
    (∃ t ∈ ftVars input, v = varFT t.1 t.2) ∨ (∃ t ∈ ptVars input, v = varPT t.1 t.2) ∨
    (∃ s ∈ wftVars input, v = varWFT s) ∨ (∃ s ∈ wptStarts input, v = varWPT s) := by
  have hgen : ∀ w, w ∈ lpGenerals input →
      (∃ t ∈ ftVars input, w = varFT t.1 t.2) ∨ (∃ t ∈ ptVars input, w = varPT t.1 t.2) ∨
      (∃ s ∈ wftVars input, w = varWFT s) ∨ (∃ s ∈ wptStarts input, w = varWPT s) := by
    intro w hw
    rw [lpGenerals] at hw
    rcases List.mem_append.mp hw with h1 | h1
    rcases List.mem_append.mp h1 with h2 | h2
    rcases List.mem_append.mp h2 with h3 | h3
    · left
      rcases List.mem_map.mp h3 with ⟨t, ht, rfl⟩
      exact ⟨t, ht, rfl⟩
    · right; left
      rcases List.mem_map.mp h3 with ⟨t, ht, rfl⟩
      exact ⟨t, ht, rfl⟩
    · right; right; left
      rcases List.mem_map.mp h2 with ⟨s, hs, rfl⟩
      exact ⟨s, hs, rfl⟩
    · right; right; right
      rcases List.mem_map.mp h1 with ⟨s, hs, rfl⟩
      exact ⟨s, hs, rfl⟩
  have hobj : ∀ ph, v ∈ lpObjTerms input ph →
      (∃ t ∈ ftVars input, v = varFT t.1 t.2) ∨ (∃ t ∈ ptVars input, v = varPT t.1 t.2) ∨
      (∃ s ∈ wftVars input, v = varWFT s) ∨ (∃ s ∈ wptStarts input, v = varWPT s) := by
    intro ph hph
    rw [lpObjTerms] at hph
    by_cases h1 : ph = 1
    · rw [if_pos h1] at hph
      exact hgen v hph
    · rw [if_neg h1] at hph
      rcases List.mem_append.mp hph with h2 | h2
      · left
        rcases List.mem_map.mp h2 with ⟨t, ht, rfl⟩
        exact ⟨t, ht, rfl⟩
      · right; right; left
        rcases List.mem_map.mp h2 with ⟨s, hs, rfl⟩
        exact ⟨s, hs, rfl⟩
  have hmix : ∀ (A : List (ℕ × ℕ)) (B : List ℕ),
      v ∈ (A.map (fun t => varFT t.1 t.2) ++ B.map (fun s => varWFT s)) →
      A = ftVars input → B = wftVars input →
      (∃ t ∈ ftVars input, v = varFT t.1 t.2) ∨ (∃ t ∈ ptVars input, v = varPT t.1 t.2) ∨
      (∃ s ∈ wftVars input, v = varWFT s) ∨ (∃ s ∈ wptStarts input, v = varWPT s) := by
    intro A B hAB hA hB
    subst hA
    subst hB
    rcases List.mem_append.mp hAB with h2 | h2
    · left
      rcases List.mem_map.mp h2 with ⟨t, ht, rfl⟩
      exact ⟨t, ht, rfl⟩
    · right; right; left
      rcases List.mem_map.mp h2 with ⟨s, hs, rfl⟩
      exact ⟨s, hs, rfl⟩
  rw [lpVarMentions] at hv
  rcases List.mem_append.mp hv with h1 | h1
  rcases List.mem_append.mp h1 with h2 | h2
  rcases List.mem_append.mp h2 with h3 | h3
  rcases List.mem_append.mp h3 with h4 | h4
  rcases List.mem_append.mp h4 with h5 | h5
  rcases List.mem_append.mp h5 with h6 | h6
  · exact hobj phase h6
  · rcases List.mem_flatMap.mp h6 with ⟨r2, hr, hterm⟩
    rcases List.mem_map.mp hterm with ⟨t, ht, rfl⟩
    have hrr := (mem_coverageRows input r2).mp hr
    rw [hrr.2.2.2.1] at ht
    rcases coverTerms_cases _ _ _ _ _ _ _ _ ht with hc | hc | hc | hc
    · left
      rcases hc with ⟨sp, hsp, hc2⟩
      rcases hc2 with rfl | rfl
      · exact ⟨sp, hsp, rfl⟩
      · exact ⟨sp, hsp, rfl⟩
    · right; left
      rcases hc with ⟨sp, hsp, rfl⟩
      exact ⟨sp, hsp, rfl⟩
    · right; right; left
      rcases hc with ⟨s, hs, rfl⟩
      exact ⟨s, hs, rfl⟩
    · right; right; right
      rcases hc with ⟨s, hs, rfl⟩
      exact ⟨s, hs, rfl⟩
  · by_cases hcond : (usePT input && decide (capPt input < 100)) = true
    · rw [if_pos hcond] at h5
      rcases List.mem_append.mp h5 with h6 | h6
      · rcases List.mem_append.mp h6 with h7 | h7
        · right; left
          rcases List.mem_map.mp h7 with ⟨t, ht, rfl⟩
          exact ⟨t, ht, rfl⟩
        · right; right; right
          rcases List.mem_map.mp h7 with ⟨s, hs, rfl⟩
          exact ⟨s, hs, rfl⟩
      · exact hmix _ _ h6 rfl rfl
    · rw [if_neg hcond] at h5
      exact absurd h5 (List.not_mem_nil v)
  · by_cases hcond : ((useWFT input || useWPT input) && decide (capWk input < 100)) = true
    · rw [if_pos hcond] at h4
      rcases List.mem_append.mp h4 with h6 | h6
      · rcases List.mem_append.mp h6 with h7 | h7
        · right; right; left
          rcases List.mem_map.mp h7 with ⟨s, hs, rfl⟩
          exact ⟨s, hs, rfl⟩
        · right; right; right
          rcases List.mem_map.mp h7 with ⟨s, hs, rfl⟩
          exact ⟨s, hs, rfl⟩
      · rcases List.mem_append.mp h6 with h7 | h7
        · left
          rcases List.mem_map.mp h7 with ⟨t, ht, rfl⟩
          exact ⟨t, ht, rfl⟩
        · right; left
          rcases List.mem_map.mp h7 with ⟨t, ht, rfl⟩
          exact ⟨t, ht, rfl⟩
    · rw [if_neg hcond] at h4
      exact absurd h4 (List.not_mem_nil v)
  · by_cases hcond : (phase = 2 && decide (0 < totalCap)) = true
    · rw [if_pos hcond] at h3
      exact hgen v h3
    · rw [if_neg hcond] at h3
      exact absurd h3 (List.not_mem_nil v)
  · exact hgen v h2
  · exact hgen v h1

-- ─── Claim C5 ───

/-- C5: when `round(partTimerCapPct) = 0`, no PT or WPT variable appears
anywhere in the model (objective, coverage rows, cap rows, phase-2 row,
bounds, General) and the driver result has `ptCount = 0` and `wptCount = 0`;
when `round(weekenderCapPct) = 0`, no WFT or WPT variable appears and the
result has `wftCount = 0` and `wptCount = 0`.  The solution maps are assumed
supported on the model variables (the solver contract). -/
theorem claimC5 (input : SolverInput) (r1 : HighsResult) (ph2 : Except Unit HighsResult)
    (hsol1 : ∀ kv ∈ r1.columns, kv.1 ∈ lpGenerals input)
    (hsol2 : ∀ r2, ph2 = Except.ok r2 → ∀ kv ∈ r2.columns, kv.1 ∈ lpGenerals input) :
    (capPt input = 0 →
      (∀ phase totalCap s p,
        varPT s p ∉ lpVarMentions input phase totalCap ∧
        varWPT s ∉ lpVarMentions input phase totalCap) ∧
      (driver input r1 ph2).ptCount = 0 ∧ (driver input r1 ph2).wptCount = 0) ∧
    (capWk input = 0 →
      (∀ phase totalCap s,
        varWFT s ∉ lpVarMentions input phase totalCap ∧
        varWPT s ∉ lpVarMentions input phase totalCap) ∧
      (driver input r1 ph2).wftCount = 0 ∧ (driver input r1 ph2).wptCount = 0) := by
  have hdrv : ∀ (P : SolverResult → ℕ),
      (∀ sol, (∀ kv ∈ sol, kv.1 ∈ lpGenerals input) →
        ∀ dds, P { status := "optimal"
                   workers := (buildRoster sol input.oph dds).workers
                   totalWorkers := (buildRoster sol input.oph dds).workers.length
                   ftCount := (buildRoster sol input.oph dds).ftCount
                   ptCount := (buildRoster sol input.oph dds).ptCount
                   wftCount := (buildRoster sol input.oph dds).wftCount
                   wptCount := (buildRoster sol input.oph dds).wptCount
                   coverage := (buildRoster sol input.oph dds).coverage
                   required := requiredMatrix input
                   errorMessage := none } = 0) →
      (∀ (r : HighsResult), r.status ≠ "Optimal" →
        P { status := if r.status = "Infeasible" then "infeasible" else "error"
            workers := []
            totalWorkers := 0
            ftCount := 0, ptCount := 0, wftCount := 0, wptCount := 0
            coverage := zeroMatrix
            required := zeroMatrix
            errorMessage := some ("Phase 1 solver status: " ++ r.status) } = 0) →
      P (driver input r1 ph2) = 0 := by
    intro P hOk hFail
    rw [driver.eq_def]
    split
    · exact hFail r1 (by assumption)
    · rcases ph2 with e | r2
      · rcases hb : runPhase2 input with hf | ht
        · simp only [hb, Bool.false_eq_true, if_false]
          exact hOk r1.columns hsol1 _
        · simp only [hb, if_true]
          exact hOk r1.columns hsol1 _
      · rcases hb : runPhase2 input with hf | ht
        · simp only [hb, Bool.false_eq_true, if_false]
          exact hOk r1.columns hsol1 _
        · simp only [hb, if_true]
          by_cases hr2 : r2.status = "Optimal"
          · rw [if_pos hr2]
            exact hOk r2.columns (hsol2 r2 rfl) _
          · rw [if_neg hr2]
            exact hOk r1.columns hsol1 _
  constructor
  · intro hcap
    refine ⟨?_, ?_, ?_⟩
    · intro phase totalCap s p
      constructor
      · intro hmem
        rcases mentions_cases input phase totalCap _ hmem with hc | hc | hc | hc
        · rcases hc with ⟨t, -, ht⟩
          exact varPT_ne_varFT s p t.1 t.2 ht
        · rcases hc with ⟨t, ht, -⟩
          rw [ptVars_eq_nil input hcap] at ht
          exact absurd ht (List.not_mem_nil t)
        · rcases hc with ⟨s2, -, ht⟩
          exact varPT_ne_varWFT s p s2 ht
        · rcases hc with ⟨s2, hs2, -⟩
          rw [wptStarts_eq_nil_pt input hcap] at hs2
          exact absurd hs2 (List.not_mem_nil s2)
      · intro hmem
        rcases mentions_cases input phase totalCap _ hmem with hc | hc | hc | hc
        · rcases hc with ⟨t, -, ht⟩
          exact varWPT_ne_varFT s t.1 t.2 ht
        · rcases hc with ⟨t, ht, -⟩
          rw [ptVars_eq_nil input hcap] at ht
          exact absurd ht (List.not_mem_nil t)
        · rcases hc with ⟨s2, -, ht⟩
          exact varWPT_ne_varWFT s s2 ht
        · rcases hc with ⟨s2, hs2, -⟩
          rw [wptStarts_eq_nil_pt input hcap] at hs2
          exact absurd hs2 (List.not_mem_nil s2)
    · exact hdrv (fun res => res.ptCount)
        (fun sol hs dds => by
          show (buildRoster sol input.oph dds).ptCount = 0
          show (ptProtos sol dds).length = 0
          rw [ptProtos_eq_nil input sol dds hcap hs]
          rfl)
        (fun r hr => rfl)
    · exact hdrv (fun res => res.wptCount)
        (fun sol hs dds => by
          show (wptProtos sol).length = 0
          rw [wptProtos_eq_nil_pt input sol hcap hs]
          rfl)
        (fun r hr => rfl)
  · intro hcap
    refine ⟨?_, ?_, ?_⟩
    · intro phase totalCap s
      constructor
      · intro hmem
        rcases mentions_cases input phase totalCap _ hmem with hc | hc | hc | hc
        · rcases hc with ⟨t, -, ht⟩
          exact varWFT_ne_varFT s t.1 t.2 ht
        · rcases hc with ⟨t, -, ht⟩
          exact varWFT_ne_varPT s t.1 t.2 ht
        · rcases hc with ⟨s2, hs2, -⟩
          rw [wftVars_eq_nil input hcap] at hs2
          exact absurd hs2 (List.not_mem_nil s2)
        · rcases hc with ⟨s2, hs2, -⟩
          rw [wptStarts_eq_nil_wk input hcap] at hs2
          exact absurd hs2 (List.not_mem_nil s2)
      · intro hmem
        rcases mentions_cases input phase totalCap _ hmem with hc | hc | hc | hc
        · rcases hc with ⟨t, -, ht⟩
          exact varWPT_ne_varFT s t.1 t.2 ht
        · rcases hc with ⟨t, -, ht⟩
          exact varWPT_ne_varPT s t.1 t.2 ht
        · rcases hc with ⟨s2, hs2, -⟩
          rw [wftVars_eq_nil input hcap] at hs2
          exact absurd hs2 (List.not_mem_nil s2)
        · rcases hc with ⟨s2, hs2, -⟩
          rw [wptStarts_eq_nil_wk input hcap] at hs2
          exact absurd hs2 (List.not_mem_nil s2)
    · exact hdrv (fun res => res.wftCount)
        (fun sol hs dds => by
          show (wftProtos sol).length = 0
          rw [wftProtos_eq_nil input sol hcap hs]
          rfl)
        (fun r hr => rfl)
    · exact hdrv (fun res => res.wptCount)
        (fun sol hs dds => by
          show (wptProtos sol).length = 0
          rw [wptProtos_eq_nil_wk input sol hcap hs]
          rfl)
        (fun r hr => rfl)

/-- Witness for C5 at a concrete input with the part-timer cap at 0. -/
theorem claimC5_w :
    ((∀ kv ∈ r1Optimal.columns, kv.1 ∈ lpGenerals inputSpikeNoPT) ∧
      capPt inputSpikeNoPT = 0) ∧
    ((driver inputSpikeNoPT r1Optimal ph2Err).ptCount = 0 ∧
      (driver inputSpikeNoPT r1Optimal ph2Err).wptCount = 0) :=
  ⟨⟨by simp [r1Optimal], by decide⟩,
    ((claimC5 inputSpikeNoPT r1Optimal ph2Err (by simp [r1Optimal])
      (fun r2 h => nomatch h)).1 (by decide)).2⟩

-- ─── The coverage row content matches the spec coverage condition ───

theorem mem_coverTerms_iff (input : SolverInput) (d h : ℕ) (t : LPTerm) :
    t ∈ coverTerms input.oph (ftVars input) (ptVars input) (wftVars input) (wptStarts input) d h
      ↔ specCovers input d h t := by
  rw [coverTerms, specCovers]
  constructor
  · intro ht
    rcases List.mem_append.mp ht with h1 | hD
    rcases List.mem_append.mp h1 with h2 | hC
    rcases List.mem_append.mp h2 with hA | hB
    · left
      rcases List.mem_map.mp hA with ⟨sp, hsp, rfl⟩
      obtain ⟨hmem, hcond⟩ := List.mem_filter.mp hsp
      simp only [Bool.and_eq_true, decide_eq_true_eq] at hcond
      obtain ⟨hs, hp, hact⟩ := (mem_ftVars input sp.1 sp.2).mp hmem
      exact ⟨sp.1, sp.2, hs, hp, hact, hcond.1, hcond.2, rfl⟩
    · right; left
      rcases List.mem_map.mp hB with ⟨sp, hsp, rfl⟩
      obtain ⟨hmem, hcond⟩ := List.mem_filter.mp hsp
      simp only [Bool.and_eq_true, decide_eq_true_eq] at hcond
      obtain ⟨hs, hp, hact⟩ := (mem_ftVars input sp.1 sp.2).mp hmem
      exact ⟨sp.1, sp.2, hs, hp, hact, hcond.1.1, hcond.1.2, hcond.2, rfl⟩
    · right; right; left
      rcases List.mem_map.mp hC with ⟨sp, hsp, rfl⟩
      obtain ⟨hmem, hcond⟩ := List.mem_filter.mp hsp
      simp only [Bool.and_eq_true, decide_eq_true_eq] at hcond
      obtain ⟨hu, hs, hp, hact⟩ := (mem_ptVars input sp.1 sp.2).mp hmem
      exact ⟨hu, sp.1, sp.2, hs, hp, hact, hcond.1, hcond.2, rfl⟩
    · right; right; right
      by_cases hw : d = 5 ∨ d = 6
      · rw [if_pos hw] at hD
        refine ⟨hw, ?_⟩
        rcases List.mem_append.mp hD with h3 | h3
        · left
          rcases List.mem_map.mp h3 with ⟨s, hs3, rfl⟩
          obtain ⟨hmem, hcond⟩ := List.mem_filter.mp hs3
          simp only [decide_eq_true_eq] at hcond
          obtain ⟨hu, hs, hact⟩ := (mem_wftVars input s).mp hmem
          exact ⟨hu, s, hs, hact, hcond, rfl⟩
        · right
          rcases List.mem_map.mp h3 with ⟨s, hs3, rfl⟩
          obtain ⟨hmem, hcond⟩ := List.mem_filter.mp hs3
          simp only [decide_eq_true_eq] at hcond
          obtain ⟨hu, hs, hact⟩ := (mem_wptStarts input s).mp hmem
          exact ⟨hu, s, hs, hact, hcond, rfl⟩
      · rw [if_neg hw] at hD
        exact absurd hD (List.not_mem_nil t)
  · intro hspec
    rcases hspec with ⟨s, p, hs, hp, hact, hpd, hmem, rfl⟩ |
      ⟨s, p, hs, hp, hact, h20, hpd, hmem, rfl⟩ |
      ⟨hu, s, p, hs, hp, hact, hdp, hmem, rfl⟩ | ⟨hw, hrest⟩
    · apply List.mem_append.mpr
      left
      apply List.mem_append.mpr
      left
      apply List.mem_append.mpr
      left
      apply List.mem_map.mpr
      refine ⟨(s, p), List.mem_filter.mpr ⟨(mem_ftVars input s p).mpr ⟨hs, hp, hact⟩, ?_⟩, rfl⟩
      simp only [Bool.and_eq_true, decide_eq_true_eq]
      exact ⟨hpd, hmem⟩
    · apply List.mem_append.mpr
      left
      apply List.mem_append.mpr
      left
      apply List.mem_append.mpr
      right
      apply List.mem_map.mpr
      refine ⟨(s, p), List.mem_filter.mpr ⟨(mem_ftVars input s p).mpr ⟨hs, hp, hact⟩, ?_⟩, rfl⟩
      simp only [Bool.and_eq_true, decide_eq_true_eq]
      exact ⟨⟨h20, hpd⟩, hmem⟩
    · apply List.mem_append.mpr
      left
      apply List.mem_append.mpr
      right
      apply List.mem_map.mpr
      refine ⟨(s, p),
        List.mem_filter.mpr ⟨(mem_ptVars input s p).mpr ⟨hu, hs, hp, hact⟩, ?_⟩, rfl⟩
      simp only [Bool.and_eq_true, decide_eq_true_eq]
      exact ⟨hdp, hmem⟩
    · apply List.mem_append.mpr
      right
      rw [if_pos hw]
      rcases hrest with ⟨hu, s, hs, hact, hmem, rfl⟩ | ⟨hu, s, hs, hact, hmem, rfl⟩
      · apply List.mem_append.mpr
        left
        apply List.mem_map.mpr
        refine ⟨s, List.mem_filter.mpr ⟨(mem_wftVars input s).mpr ⟨hu, hs, hact⟩, ?_⟩, rfl⟩
        simp only [decide_eq_true_eq]
        exact hmem
      · apply List.mem_append.mpr
        right
        apply List.mem_map.mpr
        refine ⟨s, List.mem_filter.mpr ⟨(mem_wptStarts input s).mpr ⟨hu, hs, hact⟩, ?_⟩, rfl⟩
        simp only [decide_eq_true_eq]
        exact hmem

/-- Every cell with positive demand is covered by at least one active FT
template, so its coverage row always has at least one term. -/
theorem coverTerms_ne_nil (input : SolverInput) (d h : ℕ) (hd : d < 7) (hh : h < 24)
    (hpos : 0 < input.oph d h) :
    coverTerms input.oph (ftVars input) (ptVars input) (wftVars input) (wptStarts input) d h
      ≠ [] := by
  have hdds : ∀ q, q < 5 → q ∈ dayOffDays input := by
    intro q hq
    rw [dayOffDays]
    split
    · exact (mem_ALL_DAYS q).mpr (by omega)
    · exact (mem_MON_FRI q).mpr hq
  have hex : ∃ t, specCovers input d h t := by
    by_cases h5 : h < 5
    · -- only an overnight wrap reaches hours 0–4: take start 20 on day (d-1) mod 7
      refine ⟨_, Or.inr (Or.inl
        ⟨20, if prevDay d = 0 then 1 else 0, by decide, hdds _ (by split <;> omega), ?_,
          by omega, ?_, ?_, rfl⟩)⟩
      · rw [isActiveFT, List.any_eq_true]
        refine ⟨prevDay d, (mem_ALL_DAYS _).mpr ?_, ?_⟩
        · rw [prevDay]
          omega
        · simp only [Bool.and_eq_true, Bool.or_eq_true, decide_eq_true_eq, List.any_eq_true]
          constructor
          · split <;> omega
          · right
            refine ⟨h, (mem_nextDay9 20 h).mpr (by omega), ?_⟩
            have heq : (prevDay d + 1) % 7 = d := by
              rw [prevDay]
              omega
            rw [heq]
            exact hpos
      · split <;> omega
      · rw [mem_raw9]
        omega
    · -- a day FT starting at 5 (h ≤ 13) or h - 8 (h ≥ 14) covers h same-day
      refine ⟨_, Or.inl
        ⟨if h ≤ 13 then 5 else h - 8, if d = 0 then 1 else 0,
          (mem_FT_STARTS _).mpr (by split <;> omega), hdds _ (by split <;> omega), ?_,
          by split <;> omega, (mem_sameDay9 _ h).mpr (by split <;> omega), rfl⟩⟩
      rw [isActiveFT, List.any_eq_true]
      refine ⟨d, (mem_ALL_DAYS d).mpr hd, ?_⟩
      simp only [Bool.and_eq_true, Bool.or_eq_true, decide_eq_true_eq, List.any_eq_true]
      constructor
      · split <;> omega
      · left
        exact ⟨h, (mem_sameDay9 _ h).mpr (by split <;> omega), hpos⟩
  rcases hex with ⟨t, hts⟩
  intro hnil
  have hmem := (mem_coverTerms_iff input d h t).mpr hts
  rw [hnil] at hmem
  exact absurd hmem (List.not_mem_nil t)

-- ─── Claim C1 ───

/-- C1: for every cell `(d, h)` with positive demand, `buildLP` emits a
coverage row at position `k` whose terms are exactly the active templates
covering the cell (same-day productive hours, or wrap hours of an overnight
FT started on day `(d-1) mod 7`) with their coverage coefficients, whose
right-hand side is `⌈D[d][h] / productivity_rate⌉`, and whose rendered line
` c{k+1}: {terms} >= {rhs}` appears in the LP text of either phase. -/
theorem claimC1 (input : SolverInput) (d h : ℕ) (hd : d < 7) (hh : h < 24)
    (hpos : 0 < input.oph d h) (hrate : 0 < input.config.productivityRate) :
    ∃ k r, (coverageRows input)[k]? = some r ∧ r.day = d ∧ r.hour = h ∧
      (∀ t, t ∈ r.terms ↔ specCovers input d h t) ∧
      r.rhs = ⌈(input.oph d h : ℚ) / (input.config.productivityRate : ℚ)⌉₊ ∧
      ∀ phase totalCap, renderRow (k + 1) r ∈ buildLP input phase totalCap := by
  have hne := coverTerms_ne_nil input d h hd hh hpos
  have hmem : (⟨d, h,
      coverTerms input.oph (ftVars input) (ptVars input) (wftVars input) (wptStarts input) d h,
      jsCeilDiv (input.oph d h) input.config.productivityRate⟩ : CoverageRow) ∈
      coverageRows input := by
    rw [mem_coverageRows]
    refine ⟨hd, hh, ?_, rfl, hne, rfl⟩
    show input.oph d h ≠ 0
    omega
  rcases List.mem_iff_getElem?.mp hmem with ⟨k, hk⟩
  refine ⟨k, _, hk, rfl, rfl, fun t => mem_coverTerms_iff input d h t, ?_, ?_⟩
  · exact jsCeilDiv_eq_ceil _ _ hrate
  · intro phase totalCap
    have hrow : renderRow (k + 1)
        (⟨d, h, coverTerms input.oph (ftVars input) (ptVars input) (wftVars input)
          (wptStarts input) d h,
          jsCeilDiv (input.oph d h) input.config.productivityRate⟩ : CoverageRow) ∈
        lpRowLines input := by
      rw [lpRowLines]
      apply List.mem_map.mpr
      refine ⟨(k, _), ?_, rfl⟩
      exact List.mk_mem_enum_iff_getElem?.mpr hk
    rw [buildLP]
    simp only [List.mem_append]
    tauto

/-- Witness for C1 at the single-spike demand matrix. -/
theorem claimC1_w :
    ((0 : ℕ) < 7 ∧ (10 : ℕ) < 24 ∧ 0 < inputSpike.oph 0 10 ∧
      0 < inputSpike.config.productivityRate) ∧
    ∃ k r, (coverageRows inputSpike)[k]? = some r ∧ r.day = 0 ∧ r.hour = 10 ∧
      (∀ t, t ∈ r.terms ↔ specCovers inputSpike 0 10 t) ∧
      r.rhs = ⌈(inputSpike.oph 0 10 : ℚ) / (inputSpike.config.productivityRate : ℚ)⌉₊ ∧
      ∀ phase totalCap, renderRow (k + 1) r ∈ buildLP inputSpike phase totalCap :=
  ⟨⟨by decide, by decide, by decide, by decide⟩,
    claimC1 inputSpike 0 10 (by decide) (by decide) (by decide) (by decide)⟩

-- ─── Claim C10 ───

/-- C10: `buildLP` emits a coverage row for a cell iff the cell has positive
demand and at least one term covers it — a cell no term covers yields no row
at all rather than an unsatisfiable empty row; the driver reports status
`"optimal"` whenever phase 1 is `Optimal`, with no check that coverage meets
the required matrix; concretely, an optimal solver outcome with an empty
assignment yields status `"optimal"` while coverage is below required. -/
theorem claimC10 :
    (∀ (input : SolverInput) (d h : ℕ),
      (∃ r ∈ coverageRows input, r.day = d ∧ r.hour = h) ↔
        (d < 7 ∧ h < 24 ∧ input.oph d h ≠ 0 ∧
          coverTerms input.oph (ftVars input) (ptVars input) (wftVars input)
            (wptStarts input) d h ≠ [])) ∧
    (∀ (input : SolverInput) (r1 : HighsResult) (o : Except Unit HighsResult),
      r1.status = "Optimal" → (driver input r1 o).status = "optimal") ∧
    ((driver inputSpike r1Optimal ph2Err).status = "optimal" ∧
      (driver inputSpike r1Optimal ph2Err).coverage 0 10 <
        (driver inputSpike r1Optimal ph2Err).required 0 10) := by
  refine ⟨?_, ?_, ?_⟩
  · intro input d h
    constructor
    · rintro ⟨r, hr, hd, hh⟩
      have hc := (mem_coverageRows input r).mp hr
      rw [hd, hh] at hc
      refine ⟨hc.1, hc.2.1, hc.2.2.1, ?_⟩
      rw [← hc.2.2.2.1]
      exact hc.2.2.2.2.1
    · rintro ⟨hd, hh, h0, hnn⟩
      refine ⟨⟨d, h,
        coverTerms input.oph (ftVars input) (ptVars input) (wftVars input) (wptStarts input)
          d h,
        jsCeilDiv (input.oph d h) input.config.productivityRate⟩, ?_, rfl, rfl⟩
      rw [mem_coverageRows]
      exact ⟨hd, hh, h0, rfl, hnn, rfl⟩
  · intro input r1 o h1
    rw [driver.eq_def, if_neg (by simp [h1])]
  · constructor
    · decide
    · decide

/-- Witness for C10: the spike cell produces a row. -/
theorem claimC10_w :
    ((0 : ℕ) < 7 ∧ (10 : ℕ) < 24 ∧ inputSpike.oph 0 10 ≠ 0 ∧
      coverTerms inputSpike.oph (ftVars inputSpike) (ptVars inputSpike) (wftVars inputSpike)
        (wptStarts inputSpike) 0 10 ≠ []) ∧
    (∃ r ∈ coverageRows inputSpike, r.day = 0 ∧ r.hour = 10) :=
  ⟨⟨by decide, by decide, by decide, by decide⟩,
    (claimC10.1 inputSpike 0 10).mpr ⟨by decide, by decide, by decide, by decide⟩⟩

-- ─── Rank analysis of the stable-sort smearing (claim C8) ───

/-- Sorting strictly earlier (larger demand, or equal demand and smaller
index) strictly decreases the stable-sort position. -/
theorem demRank_strictMono (oph : Oph) (s sd i j : ℕ) (hj : j < 9)
    (hb : demAt oph s sd j > demAt oph s sd i ∨
      (demAt oph s sd j = demAt oph s sd i ∧ j < i)) :
    demRank oph s sd j < demRank oph s sd i := by
  rw [demRank, demRank]
  apply Finset.card_lt_card
  have hsub : (Finset.range 9).filter (fun k =>
      demAt oph s sd k > demAt oph s sd j ∨
        (demAt oph s sd k = demAt oph s sd j ∧ k < j)) ⊆
      (Finset.range 9).filter (fun k =>
        demAt oph s sd k > demAt oph s sd i ∨
          (demAt oph s sd k = demAt oph s sd i ∧ k < i)) := by
    intro k hk
    rw [Finset.mem_filter] at hk ⊢
    refine ⟨hk.1, ?_⟩
    rcases hk.2 with h1 | h1 <;> rcases hb with h2 | h2 <;> omega
  refine (Finset.ssubset_iff_of_subset hsub).mpr ⟨j, ?_, ?_⟩
  · rw [Finset.mem_filter]
    exact ⟨Finset.mem_range.mpr hj, hb⟩
  · rw [Finset.mem_filter]
    intro hcon
    rcases hcon.2 with h1 | h1 <;> omega

theorem demRank_le_eight (oph : Oph) (s sd i : ℕ) (hi : i < 9) : demRank oph s sd i ≤ 8 := by
  rw [demRank]
  have hsub : (Finset.range 9).filter (fun k =>
      demAt oph s sd k > demAt oph s sd i ∨
        (demAt oph s sd k = demAt oph s sd i ∧ k < i)) ⊆ (Finset.range 9).erase i := by
    intro k hk
    rw [Finset.mem_filter] at hk
    rw [Finset.mem_erase]
    refine ⟨?_, hk.1⟩
    intro hki
    subst hki
    rcases hk.2 with h1 | h1 <;> omega
  calc ((Finset.range 9).filter _).card ≤ ((Finset.range 9).erase i).card :=
        Finset.card_le_card hsub
    _ = 8 := by rw [Finset.card_erase_of_mem (Finset.mem_range.mpr hi), Finset.card_range]

theorem demRank_injOn (oph : Oph) (s sd : ℕ) :
    ∀ i ∈ Finset.range 9, ∀ j ∈ Finset.range 9,
      demRank oph s sd i = demRank oph s sd j → i = j := by
  intro i hi j hj heq
  by_contra hne
  rw [Finset.mem_range] at hi hj
  have htot : (demAt oph s sd i > demAt oph s sd j ∨
      (demAt oph s sd i = demAt oph s sd j ∧ i < j)) ∨
      (demAt oph s sd j > demAt oph s sd i ∨
        (demAt oph s sd j = demAt oph s sd i ∧ j < i)) := by omega
  rcases htot with hb | hb
  · have := demRank_strictMono oph s sd j i hi hb
    omega
  · have := demRank_strictMono oph s sd i j hj hb
    omega

theorem demRank_image (oph : Oph) (s sd : ℕ) :
    (Finset.range 9).image (demRank oph s sd) = Finset.range 9 := by
  apply Finset.eq_of_subset_of_card_le
  · intro m hm
    rcases Finset.mem_image.mp hm with ⟨i, hi, rfl⟩
    rw [Finset.mem_range]
    have := demRank_le_eight oph s sd i (Finset.mem_range.mp hi)
    omega
  · rw [Finset.card_image_of_injOn (demRank_injOn oph s sd), Finset.card_range]

theorem top3_card (oph : Oph) (s sd : ℕ) :
    ((Finset.range 9).filter (fun i => demRank oph s sd i < 3)).card = 3 := by
  have himg : ((Finset.range 9).filter (fun i => demRank oph s sd i < 3)).image
      (demRank oph s sd) = Finset.range 3 := by
    apply Finset.Subset.antisymm
    · intro m hm
      rcases Finset.mem_image.mp hm with ⟨i, hi, rfl⟩
      rw [Finset.mem_filter] at hi
      rw [Finset.mem_range]
      exact hi.2
    · intro m hm
      rw [Finset.mem_range] at hm
      have hm9 : m ∈ (Finset.range 9).image (demRank oph s sd) := by
        rw [demRank_image]
        rw [Finset.mem_range]
        omega
      rcases Finset.mem_image.mp hm9 with ⟨i, hi, rfl⟩
      apply Finset.mem_image.mpr
      refine ⟨i, ?_, rfl⟩
      rw [Finset.mem_filter]
      exact ⟨hi, hm⟩
  have hinj : ∀ i ∈ (Finset.range 9).filter (fun i => demRank oph s sd i < 3),
      ∀ j ∈ (Finset.range 9).filter (fun i => demRank oph s sd i < 3),
        demRank oph s sd i = demRank oph s sd j → i = j := by
    intro i hi j hj
    exact demRank_injOn oph s sd i (Finset.mem_filter.mp hi).1 j (Finset.mem_filter.mp hj).1
  have := Finset.card_image_of_injOn hinj
  rw [himg, Finset.card_range] at this
  omega

-- ─── Claim C8 ───

/-- C8: for every 9-hour shift window, `smearedCoeff` returns 1.0 exactly on a
three-element set of window indices each of which has higher demand than — or
equal demand and smaller index than — every index outside the set (the top-3
of the stable descending sort), and 5/6 on the other six; and every PT/WPT
variable occurring in a coverage row occurs as a plain term, i.e. with
coefficient 1. -/
theorem claimC8 (oph : Oph) (s shiftDay rawH : ℕ) (hs : s ≤ rawH) (hr : rawH ≤ s + 8) :
    (∃ S : Finset ℕ, S ⊆ Finset.range 9 ∧ S.card = 3 ∧
      (∀ i ∈ S, ∀ j ∈ Finset.range 9, j ∉ S →
        demAt oph s shiftDay i > demAt oph s shiftDay j ∨
          (demAt oph s shiftDay i = demAt oph s shiftDay j ∧ i < j)) ∧
      (smearedCoeff oph s shiftDay rawH = 1 ↔ rawH - s ∈ S) ∧
      (rawH - s ∉ S → smearedCoeff oph s shiftDay rawH = 5 / 6)) ∧
    (∀ (input : SolverInput) (r : CoverageRow) (t : LPTerm), r ∈ coverageRows input →
      t ∈ r.terms → ∀ q p2,
        (t.vname = varPT q p2 ∨ t.vname = varWPT q) → t = LPTerm.plain t.vname) := by
  constructor
  · refine ⟨(Finset.range 9).filter (fun i => demRank oph s shiftDay i < 3),
      Finset.filter_subset _ _, top3_card oph s shiftDay, ?_, ?_, ?_⟩
    · intro i hi j hj hjn
      rw [Finset.mem_filter] at hi
      have hj3 : ¬ demRank oph s shiftDay j < 3 := by
        intro hcon
        exact hjn (Finset.mem_filter.mpr ⟨hj, hcon⟩)
      have hne : i ≠ j := by
        intro hcon
        rw [hcon] at hi
        exact hj3 hi.2
      have htot : (demAt oph s shiftDay i > demAt oph s shiftDay j ∨
          (demAt oph s shiftDay i = demAt oph s shiftDay j ∧ i < j)) ∨
          (demAt oph s shiftDay j > demAt oph s shiftDay i ∨
            (demAt oph s shiftDay j = demAt oph s shiftDay i ∧ j < i)) := by omega
      rcases htot with hb | hb
      · exact hb
      · exfalso
        have := demRank_strictMono oph s shiftDay i j (Finset.mem_range.mp hj) hb
        omega
    · rw [smearedCoeff]
      constructor
      · intro h1
        by_cases h3 : demRank oph s shiftDay (rawH - s) < 3
        · exact Finset.mem_filter.mpr ⟨Finset.mem_range.mpr (by omega), h3⟩
        · rw [if_neg h3] at h1
          exact absurd h1 (by norm_num)
      · intro hmem
        rw [if_pos (Finset.mem_filter.mp hmem).2]
    · intro hnm
      rw [smearedCoeff, if_neg]
      intro hcon
      exact hnm (Finset.mem_filter.mpr ⟨Finset.mem_range.mpr (by omega), hcon⟩)
  · intro input r t hr2 ht q p2 hname
    have hc := (mem_coverageRows input r).mp hr2
    rw [hc.2.2.2.1] at ht
    rcases coverTerms_cases _ _ _ _ _ _ _ _ ht with hcs | hcs | hcs | hcs
    · exfalso
      rcases hcs with ⟨sp, -, hcs2⟩
      rcases hcs2 with rfl | rfl <;> rcases hname with hn | hn
      · exact varPT_ne_varFT q p2 sp.1 sp.2 hn.symm
      · exact varWPT_ne_varFT q sp.1 sp.2 hn.symm
      · exact varPT_ne_varFT q p2 sp.1 sp.2 hn.symm
      · exact varWPT_ne_varFT q sp.1 sp.2 hn.symm
    · rcases hcs with ⟨sp, -, rfl⟩
      rfl
    · exfalso
      rcases hcs with ⟨s2, -, rfl⟩
      rcases hname with hn | hn
      · exact varPT_ne_varWFT q p2 s2 hn.symm
      · exact varWPT_ne_varWFT q s2 hn.symm
    · rcases hcs with ⟨s2, -, rfl⟩
      rfl

/-- Witness for C8 at a concrete shift window. -/
theorem claimC8_w :
    ((5 : ℕ) ≤ 10 ∧ (10 : ℕ) ≤ 5 + 8) ∧
    (∃ S : Finset ℕ, S ⊆ Finset.range 9 ∧ S.card = 3 ∧
      (∀ i ∈ S, ∀ j ∈ Finset.range 9, j ∉ S →
        demAt ophSpike 5 0 i > demAt ophSpike 5 0 j ∨
          (demAt ophSpike 5 0 i = demAt ophSpike 5 0 j ∧ i < j)) ∧
      (smearedCoeff ophSpike 5 0 10 = 1 ↔ 10 - 5 ∈ S) ∧
      (10 - 5 ∉ S → smearedCoeff ophSpike 5 0 10 = 5 / 6)) :=
  ⟨⟨by decide, by decide⟩, (claimC8 ophSpike 5 0 10 (by decide) (by decide)).1⟩

end Roster
